import Mathlib

/-!
Verification development for the dhall-rust core pipeline
(parsing AST, import resolution, typechecking contexts, normalization,
binary codec), embedded shallowly from the Rust sources.
-/

namespace DhallSpec

/-- Labels are interned identifier strings; equality is string equality. -/
abbrev Label := String

/-- De Bruijn-style variable: a pair of a label and a shadowing index.
The variable written x@n means the n-th enclosing binder named x,
counting from 0 at the innermost. -/
structure V where
  name : Label
  idx : Nat
  deriving DecidableEq, Repr

/-- Universe constants (Type, Kind, Sort). -/
inductive Const where
  | type_ | kind | sort
  deriving DecidableEq, Repr

/-- Built-in names, translated from Builtin::parse in dhall_syntax/src/parser.rs. -/
inductive Builtin where
  | bool | natural | integer | double | text | list | optional | optionalNone
  | naturalBuild | naturalFold | naturalIsZero | naturalEven | naturalOdd
  | naturalToInteger | naturalShow | naturalSubtract
  | integerToDouble | integerShow | doubleShow
  | listBuild | listFold | listLength | listHead | listLast | listIndexed
  | listReverse
  | optionalFold | optionalBuild
  | textShow
  deriving DecidableEq, Repr

/-- The thirteen binary operators of the AST. -/
inductive BinOpK where
  | boolOr | boolAnd | boolEQ | boolNE
  | naturalPlus | naturalTimes
  | textAppend | listAppend
  | combine | prefer | combineTypes
  | equivalence | importAlt
  deriving DecidableEq, Repr

/-- The beginning of a file path which anchors subsequent path components,
translated from FilePrefix in dhall_syntax/src/core/import.rs. -/
inductive FilePfx where
  | absolute | here | parent | home
  deriving DecidableEq, Repr

/-- URL scheme, translated from Scheme in dhall_syntax/src/core/import.rs. -/
inductive Scheme where
  | http | https
  deriving DecidableEq, Repr

/-- Integrity hash, translated from Hash in dhall_syntax/src/core/import.rs. -/
inductive Hash where
  | sha256 (bytes : List Nat)
  deriving DecidableEq, Repr

/-- How to interpret the import contents, translated from ImportMode in
dhall_syntax/src/core/import.rs. -/
inductive ImportMode where
  | code | rawText | location
  deriving DecidableEq, Repr

mutual

/-- The recursive syntactic AST.  Modelled from the spec: section 3 lists the
variants (constants, built-ins, variables, lambda, pi, let, application, if,
the thirteen binary operators, record types and literals, union types, list
literals, Some, interpolated text literals, field selection, projection,
merge, annotation, assert, imports); the Rust definition (ExprF in
dhall_syntax) is not under src/.  The parameter ν is the payload of
resolved imports (Embed nodes), Expr of Normalized in the source. -/
inductive Expr (ν : Type) where
  | constE (c : Const)
  | builtinE (b : Builtin)
  | var (v : V)
  | lam (x : Label) (ty : Expr ν) (body : Expr ν)
  | pi (x : Label) (ty : Expr ν) (body : Expr ν)
  | letIn (x : Label) (ann : OptExpr ν) (val : Expr ν) (body : Expr ν)
  | app (f : Expr ν) (a : Expr ν)
  | boolIf (c : Expr ν) (t : Expr ν) (e : Expr ν)
  | binOp (op : BinOpK) (l : Expr ν) (r : Expr ν)
  | boolLit (b : Bool)
  | naturalLit (n : Nat)
  | integerLit (i : Int)
  | doubleLit (bits : Nat)
  | textLit (t : TextChunks ν)
  | neListLit (xs : ExprList ν)
  | emptyListLit (ty : Expr ν)
  | someLit (e : Expr ν)
  | field (e : Expr ν) (l : Label)
  | projection (e : Expr ν) (ls : List Label)
  | merge (handlers : Expr ν) (u : Expr ν) (ann : OptExpr ν)
  | annotE (e : Expr ν) (ty : Expr ν)
  | assertE (e : Expr ν)
  | recordType (fields : RecFields ν)
  | recordLit (fields : RecFields ν)
  | unionType (alts : UnionAlts ν)
  | importE (i : ImportE ν)
  | embed (n : ν)

/-- An optional sub-expression (type annotations, merge annotations,
remote-import headers). -/
inductive OptExpr (ν : Type) where
  | noneE
  | someE (e : Expr ν)

/-- A list of sub-expressions (non-empty list literals). -/
inductive ExprList (ν : Type) where
  | nilE
  | consE (head : Expr ν) (tail : ExprList ν)

/-- The labelled map for record types and record literals. -/
inductive RecFields (ν : Type) where
  | nilF
  | consF (l : Label) (e : Expr ν) (rest : RecFields ν)

/-- The labelled map for union types; alternatives may lack a payload. -/
inductive UnionAlts (ν : Type) where
  | nilU
  | consU (l : Label) (e : OptExpr ν) (rest : UnionAlts ν)

/-- Interpolated text: a sequence of raw chunks and embedded expressions. -/
inductive TextChunks (ν : Type) where
  | nilT
  | chunk (s : String) (rest : TextChunks ν)
  | interp (e : Expr ν) (rest : TextChunks ν)

/-- Reference to an external resource, translated from Import in
dhall_syntax/src/core/import.rs: a mode, a location and an optional hash. -/
inductive ImportE (ν : Type) where
  | mk (mode : ImportMode) (loc : ImportLoc ν) (hash : Option Hash)

/-- The location of an import, translated from ImportLocation and URL in
dhall_syntax/src/core/import.rs; the remote variant carries the URL fields
inline (scheme, authority, path, query, optional headers sub-expression). -/
inductive ImportLoc (ν : Type) where
  | localL (pfx : FilePfx) (path : List String)
  | remote (scheme : Scheme) (authority : String) (path : List String)
      (query : Option String) (headers : OptExpr ν)
  | envL (name : String)
  | missing

end

deriving instance DecidableEq for Expr

deriving instance DecidableEq for ImportE

deriving instance DecidableEq for OptExpr

/-- Type errors, kept opaque: the typechecker is an external stage for the
resolution claims (phase/typecheck.rs is not under src/). -/
abbrev TypeError := String

mutual

/-- Import resolution errors, translated from the uses in
dhall/src/phase/resolve.rs (ImportCycle, Recursive, UnexpectedImport);
error.rs is not under src/, so the ioError variant is modelled from the
spec's error table (section 7). -/
inductive ImportError (ν : Type) where
  | importCycle (stack : List (ImportE ν)) (i : ImportE ν)
  | recursive (i : ImportE ν) (e : ErrorE ν)
  | unexpectedImport (i : ImportE ν)
  | ioError (msg : String)

/-- The aggregated error type of the pipeline.  Modelled from the spec:
the error taxonomy of section 7 (parse, import and type errors);
dhall/src/error.rs is not under src/. -/
inductive ErrorE (ν : Type) where
  | parseE (msg : String)
  | importErr (e : ImportError ν)
  | typecheckE (e : TypeError)

end

/-- Outcome channel of a Rust computation: a proper error value, an aborted
process (a panic from an unimplemented! or an unwrap), or a computation that
exhausted its fuel budget (modelling non-termination). -/
inductive RFail (ε : Type) where
  | fail (e : ε)
  | panicked (msg : String)
  | outOfFuel

/-- A root from which to resolve relative imports, translated from ImportRoot
in dhall/src/phase/resolve.rs (LocalDir, the path given by its components). -/
abbrev ImportRoot := List String

/-- A parsed expression together with its import root, modelling Parsed in
dhall/src/phase/mod.rs. -/
structure ParsedT (ν : Type) where
  expr : Expr ν
  root : ImportRoot

/-- The resolver's mutable state: the import cache (modelling the
HashMap from Import to Normalized of resolve.rs, as a first-match
association list) and a ghost history field recording, in order, each import
whose load-parse-resolve-typecheck-normalize pipeline completed successfully
(the events at which resolve.rs inserts into the cache).  The ghost field
instruments the code for the at-most-once property and has no counterpart
in the Rust struct. -/
structure RState (ν : Type) where
  cache : List (ImportE ν × ν)
  loads : List (ImportE ν)

/-- First-match lookup in the cache, modelling HashMap::get. -/
def cacheGet [DecidableEq ν] (i : ImportE ν) : List (ImportE ν × ν) → Option ν
  | [] => none
  | (k, v) :: rest => if k = i then some v else cacheGet i rest

/-- The keys of the cache. -/
def cacheKeys (c : List (ImportE ν × ν)) : List (ImportE ν) :=
  c.map (·.1)

/-- State-passing computations of the resolver: the state survives an error,
as the Rust cache is threaded by mutable borrow. -/
abbrev ResM (ν : Type) (ε : Type) (α : Type) :=
  RState ν → RState ν × Except ε α

/-- Sequencing for ResM: errors short-circuit but keep the state. -/
def bindR (p : ResM ν ε α) (k : α → ResM ν ε β) : ResM ν ε β := fun st =>
  match p st with
  | (s, Except.ok a) => k a s
  | (s, Except.error e) => (s, Except.error e)

/-- The pure computation of ResM. -/
def pureR (a : α) : ResM ν ε α := fun st => (st, Except.ok a)

/-- The failing computation of ResM. -/
def throwR (e : ε) : ResM ν ε α := fun st => (st, Except.error e)

/-- External collaborators of the resolver.  Modelled from the spec:
section 6 makes text-to-AST parsing external and names typecheck and
normalize as the pipeline stages the resolver sequences (resolve.rs calls
Parsed::parse_file, Resolved::typecheck and Typed::normalize, whose bodies
in phase/parse.rs, phase/typecheck.rs and phase/normalize.rs are not under
src/).  τ models Typed, ν models Normalized. -/
structure Collab (ν τ : Type) where
  parseFile : List String → Except (ErrorE ν) (ParsedT ν)
  typecheckF : Expr ν → Except TypeError τ
  normalizeF : τ → ν

mutual

/-- Modelled from the spec: the traverse-resolve of section 4.2 maps
each import of the AST to its resolved form (an Embed payload), children
first;
per section 8 no Import node and no ImportAlt operator survive a successful
traversal, so an ImportAlt node resolves to its left alternative when that
alternative resolves, and otherwise to its right alternative
(Expr::traverse_resolve_mut in dhall_syntax is not under src/). -/
def traverseResolveE (f : ImportE ν → Except ε ν) : Expr ν → Except ε (Expr ν)
  | .constE c => Except.ok (.constE c)
  | .builtinE b => Except.ok (.builtinE b)
  | .var v => Except.ok (.var v)
  | .lam x t b => do Except.ok (.lam x (← traverseResolveE f t) (← traverseResolveE f b))
  | .pi x t b => do Except.ok (.pi x (← traverseResolveE f t) (← traverseResolveE f b))
  | .letIn x a v b => do
      Except.ok (.letIn x (← traverseResolveOpt f a) (← traverseResolveE f v)
        (← traverseResolveE f b))
  | .app g a => do Except.ok (.app (← traverseResolveE f g) (← traverseResolveE f a))
  | .boolIf c t e => do
      Except.ok (.boolIf (← traverseResolveE f c) (← traverseResolveE f t)
        (← traverseResolveE f e))
  | .binOp BinOpK.importAlt l r =>
      match traverseResolveE f l with
      | Except.ok l2 => Except.ok l2
      | Except.error _ => traverseResolveE f r
  | .binOp op l r => do
      Except.ok (.binOp op (← traverseResolveE f l) (← traverseResolveE f r))
  | .boolLit b => Except.ok (.boolLit b)
  | .naturalLit n => Except.ok (.naturalLit n)
  | .integerLit i => Except.ok (.integerLit i)
  | .doubleLit d => Except.ok (.doubleLit d)
  | .textLit t => do Except.ok (.textLit (← traverseResolveChunks f t))
  | .neListLit xs => do Except.ok (.neListLit (← traverseResolveList f xs))
  | .emptyListLit t => do Except.ok (.emptyListLit (← traverseResolveE f t))
  | .someLit e => do Except.ok (.someLit (← traverseResolveE f e))
  | .field e l => do Except.ok (.field (← traverseResolveE f e) l)
  | .projection e ls => do Except.ok (.projection (← traverseResolveE f e) ls)
  | .merge h u a => do
      Except.ok (.merge (← traverseResolveE f h) (← traverseResolveE f u)
        (← traverseResolveOpt f a))
  | .annotE e t => do Except.ok (.annotE (← traverseResolveE f e) (← traverseResolveE f t))
  | .assertE e => do Except.ok (.assertE (← traverseResolveE f e))
  | .recordType fs => do Except.ok (.recordType (← traverseResolveFields f fs))
  | .recordLit fs => do Except.ok (.recordLit (← traverseResolveFields f fs))
  | .unionType alts => do Except.ok (.unionType (← traverseResolveAlts f alts))
  | .importE i => do
      let i2 ← traverseResolveImp f i
      let n ← f i2
      Except.ok (.embed n)
  | .embed n => Except.ok (.embed n)

/-- Traversal of an optional sub-expression. -/
def traverseResolveOpt (f : ImportE ν → Except ε ν) : OptExpr ν → Except ε (OptExpr ν)
  | .noneE => Except.ok .noneE
  | .someE e => do Except.ok (.someE (← traverseResolveE f e))

/-- Traversal of a list of sub-expressions. -/
def traverseResolveList (f : ImportE ν → Except ε ν) : ExprList ν → Except ε (ExprList ν)
  | .nilE => Except.ok .nilE
  | .consE e rest => do
      Except.ok (.consE (← traverseResolveE f e) (← traverseResolveList f rest))

/-- Traversal of record fields. -/
def traverseResolveFields (f : ImportE ν → Except ε ν) : RecFields ν → Except ε (RecFields ν)
  | .nilF => Except.ok .nilF
  | .consF l e rest => do
      Except.ok (.consF l (← traverseResolveE f e) (← traverseResolveFields f rest))

/-- Traversal of union alternatives. -/
def traverseResolveAlts (f : ImportE ν → Except ε ν) : UnionAlts ν → Except ε (UnionAlts ν)
  | .nilU => Except.ok .nilU
  | .consU l e rest => do
      Except.ok (.consU l (← traverseResolveOpt f e) (← traverseResolveAlts f rest))

/-- Traversal of text chunks. -/
def traverseResolveChunks (f : ImportE ν → Except ε ν) : TextChunks ν → Except ε (TextChunks ν)
  | .nilT => Except.ok .nilT
  | .chunk s rest => do Except.ok (.chunk s (← traverseResolveChunks f rest))
  | .interp e rest => do
      Except.ok (.interp (← traverseResolveE f e) (← traverseResolveChunks f rest))

/-- Traversal of the sub-expressions of an import (remote headers),
translated from Import::traverse_mut in dhall_syntax/src/core/import.rs. -/
def traverseResolveImp (f : ImportE ν → Except ε ν) : ImportE ν → Except ε (ImportE ν)
  | .mk mode loc hash => do Except.ok (.mk mode (← traverseResolveLoc f loc) hash)

/-- Traversal of an import location, translated from
ImportLocation::traverse_mut in dhall_syntax/src/core/import.rs: only
remote headers contain sub-expressions. -/
def traverseResolveLoc (f : ImportE ν → Except ε ν) : ImportLoc ν → Except ε (ImportLoc ν)
  | .localL p path => Except.ok (.localL p path)
  | .remote s auth path q hs => do
      Except.ok (.remote s auth path q (← traverseResolveOpt f hs))
  | .envL n => Except.ok (.envL n)
  | .missing => Except.ok .missing

end

/-- skip_resolve_expr from dhall/src/phase/resolve.rs lines 99 to 108:
traverse the parsed expression with a closure that rejects every import
with UnexpectedImport. -/
def skipResolveExpr (p : ParsedT ν) : Except (ImportError ν) (Expr ν) :=
  traverseResolveE (fun i => Except.error (ImportError.unexpectedImport i)) p.expr

mutual

/-- No Import node and no ImportAlt operator occurs anywhere. -/
def noImportsE : Expr ν → Bool
  | .constE _ | .builtinE _ | .var _ => true
  | .lam _ t b => noImportsE t && noImportsE b
  | .pi _ t b => noImportsE t && noImportsE b
  | .letIn _ a v b => noImportsOpt a && noImportsE v && noImportsE b
  | .app g a => noImportsE g && noImportsE a
  | .boolIf c t e => noImportsE c && noImportsE t && noImportsE e
  | .binOp op l r => !(op = BinOpK.importAlt) && noImportsE l && noImportsE r
  | .boolLit _ | .naturalLit _ | .integerLit _ | .doubleLit _ => true
  | .textLit t => noImportsChunks t
  | .neListLit xs => noImportsList xs
  | .emptyListLit t => noImportsE t
  | .someLit e => noImportsE e
  | .field e _ => noImportsE e
  | .projection e _ => noImportsE e
  | .merge h u a => noImportsE h && noImportsE u && noImportsOpt a
  | .annotE e t => noImportsE e && noImportsE t
  | .assertE e => noImportsE e
  | .recordType fs => noImportsFields fs
  | .recordLit fs => noImportsFields fs
  | .unionType alts => noImportsAlts alts
  | .importE _ => false
  | .embed _ => true

/-- No import in an optional sub-expression. -/
def noImportsOpt : OptExpr ν → Bool
  | .noneE => true
  | .someE e => noImportsE e

/-- No import in a list of sub-expressions. -/
def noImportsList : ExprList ν → Bool
  | .nilE => true
  | .consE e rest => noImportsE e && noImportsList rest

/-- No import in record fields. -/
def noImportsFields : RecFields ν → Bool
  | .nilF => true
  | .consF _ e rest => noImportsE e && noImportsFields rest

/-- No import in union alternatives. -/
def noImportsAlts : UnionAlts ν → Bool
  | .nilU => true
  | .consU _ e rest => noImportsOpt e && noImportsAlts rest

/-- No import in text chunks. -/
def noImportsChunks : TextChunks ν → Bool
  | .nilT => true
  | .chunk _ rest => noImportsChunks rest
  | .interp e rest => noImportsE e && noImportsChunks rest

end

mutual

/-- All import nodes occurring in an expression, in traversal order. -/
def importsOfE : Expr ν → List (ImportE ν)
  | .constE _ | .builtinE _ | .var _ => []
  | .lam _ t b => importsOfE t ++ importsOfE b
  | .pi _ t b => importsOfE t ++ importsOfE b
  | .letIn _ a v b => importsOfOpt a ++ importsOfE v ++ importsOfE b
  | .app g a => importsOfE g ++ importsOfE a
  | .boolIf c t e => importsOfE c ++ importsOfE t ++ importsOfE e
  | .binOp _ l r => importsOfE l ++ importsOfE r
  | .boolLit _ | .naturalLit _ | .integerLit _ | .doubleLit _ => []
  | .textLit t => importsOfChunks t
  | .neListLit xs => importsOfList xs
  | .emptyListLit t => importsOfE t
  | .someLit e => importsOfE e
  | .field e _ => importsOfE e
  | .projection e _ => importsOfE e
  | .merge h u a => importsOfE h ++ importsOfE u ++ importsOfOpt a
  | .annotE e t => importsOfE e ++ importsOfE t
  | .assertE e => importsOfE e
  | .recordType fs => importsOfFields fs
  | .recordLit fs => importsOfFields fs
  | .unionType alts => importsOfAlts alts
  | .importE i => importsOfImp i ++ [i]
  | .embed _ => []

/-- Imports of an optional sub-expression. -/
def importsOfOpt : OptExpr ν → List (ImportE ν)
  | .noneE => []
  | .someE e => importsOfE e

/-- Imports of a list of sub-expressions. -/
def importsOfList : ExprList ν → List (ImportE ν)
  | .nilE => []
  | .consE e rest => importsOfE e ++ importsOfList rest

/-- Imports of record fields. -/
def importsOfFields : RecFields ν → List (ImportE ν)
  | .nilF => []
  | .consF _ e rest => importsOfE e ++ importsOfFields rest

/-- Imports of union alternatives. -/
def importsOfAlts : UnionAlts ν → List (ImportE ν)
  | .nilU => []
  | .consU _ e rest => importsOfOpt e ++ importsOfAlts rest

/-- Imports of text chunks. -/
def importsOfChunks : TextChunks ν → List (ImportE ν)
  | .nilT => []
  | .chunk _ rest => importsOfChunks rest
  | .interp e rest => importsOfE e ++ importsOfChunks rest

/-- Imports occurring inside an import node itself (remote headers). -/
def importsOfImp : ImportE ν → List (ImportE ν)
  | .mk _ loc _ => importsOfLoc loc

/-- Imports occurring inside an import location. -/
def importsOfLoc : ImportLoc ν → List (ImportE ν)
  | .remote _ _ _ _ hs => importsOfOpt hs
  | .localL _ _ | .envL _ | .missing => []

end

/-- Wrap the outcome of load_import as resolve_import does at
resolve.rs lines 40 to 42: a proper error is boxed into
ImportError::Recursive for the failing import; a panic or exhausted fuel
propagates unchanged. -/
def wrapLoadRes (i : ImportE ν) :
    RState ν × Except (RFail (ErrorE ν)) ν → RState ν × Except (RFail (ImportError ν)) ν
  | (s, Except.ok v) => (s, Except.ok v)
  | (s, Except.error (RFail.fail e)) =>
      (s, Except.error (RFail.fail (ImportError.recursive i e)))
  | (s, Except.error (RFail.panicked m)) => (s, Except.error (RFail.panicked m))
  | (s, Except.error RFail.outOfFuel) => (s, Except.error RFail.outOfFuel)

mutual

/-- The resolving traversal of do_resolve_expr (resolve.rs lines 60 to 93):
expr.traverse_resolve_mut with the resolve closure, inlined here because the
closure recurses into the pipeline.  Children are traversed first; an Import
node is then handed to the closure (resolveOne) and replaced by the Embed of
the Normalized result; an ImportAlt node is replaced by its left alternative
when that one resolves, and otherwise by its right alternative (a panic or
exhausted fuel is not caught). -/
def resolveExprGo [DecidableEq ν] (C : Collab ν τ) (fuel : Nat) (root : ImportRoot)
    (stack : List (ImportE ν)) : Expr ν → ResM ν (RFail (ImportError ν)) (Expr ν)
  | .constE c => pureR (.constE c)
  | .builtinE b => pureR (.builtinE b)
  | .var v => pureR (.var v)
  | .lam x t b =>
      bindR (resolveExprGo C fuel root stack t) fun t2 =>
      bindR (resolveExprGo C fuel root stack b) fun b2 => pureR (.lam x t2 b2)
  | .pi x t b =>
      bindR (resolveExprGo C fuel root stack t) fun t2 =>
      bindR (resolveExprGo C fuel root stack b) fun b2 => pureR (.pi x t2 b2)
  | .letIn x a v b =>
      bindR (resolveOptGo C fuel root stack a) fun a2 =>
      bindR (resolveExprGo C fuel root stack v) fun v2 =>
      bindR (resolveExprGo C fuel root stack b) fun b2 => pureR (.letIn x a2 v2 b2)
  | .app g a =>
      bindR (resolveExprGo C fuel root stack g) fun g2 =>
      bindR (resolveExprGo C fuel root stack a) fun a2 => pureR (.app g2 a2)
  | .boolIf c t e =>
      bindR (resolveExprGo C fuel root stack c) fun c2 =>
      bindR (resolveExprGo C fuel root stack t) fun t2 =>
      bindR (resolveExprGo C fuel root stack e) fun e2 => pureR (.boolIf c2 t2 e2)
  | .binOp BinOpK.importAlt l r => fun st =>
      match resolveExprGo C fuel root stack l st with
      | (s1, Except.ok l2) => (s1, Except.ok l2)
      | (s1, Except.error (RFail.fail _)) => resolveExprGo C fuel root stack r s1
      | (s1, Except.error e) => (s1, Except.error e)
  | .binOp op l r =>
      bindR (resolveExprGo C fuel root stack l) fun l2 =>
      bindR (resolveExprGo C fuel root stack r) fun r2 => pureR (.binOp op l2 r2)
  | .boolLit b => pureR (.boolLit b)
  | .naturalLit n => pureR (.naturalLit n)
  | .integerLit i => pureR (.integerLit i)
  | .doubleLit d => pureR (.doubleLit d)
  | .textLit t => bindR (resolveChunksGo C fuel root stack t) fun t2 => pureR (.textLit t2)
  | .neListLit xs =>
      bindR (resolveListGo C fuel root stack xs) fun xs2 => pureR (.neListLit xs2)
  | .emptyListLit t =>
      bindR (resolveExprGo C fuel root stack t) fun t2 => pureR (.emptyListLit t2)
  | .someLit e => bindR (resolveExprGo C fuel root stack e) fun e2 => pureR (.someLit e2)
  | .field e l => bindR (resolveExprGo C fuel root stack e) fun e2 => pureR (.field e2 l)
  | .projection e ls =>
      bindR (resolveExprGo C fuel root stack e) fun e2 => pureR (.projection e2 ls)
  | .merge h u a =>
      bindR (resolveExprGo C fuel root stack h) fun h2 =>
      bindR (resolveExprGo C fuel root stack u) fun u2 =>
      bindR (resolveOptGo C fuel root stack a) fun a2 => pureR (.merge h2 u2 a2)
  | .annotE e t =>
      bindR (resolveExprGo C fuel root stack e) fun e2 =>
      bindR (resolveExprGo C fuel root stack t) fun t2 => pureR (.annotE e2 t2)
  | .assertE e => bindR (resolveExprGo C fuel root stack e) fun e2 => pureR (.assertE e2)
  | .recordType fs =>
      bindR (resolveFieldsGo C fuel root stack fs) fun fs2 => pureR (.recordType fs2)
  | .recordLit fs =>
      bindR (resolveFieldsGo C fuel root stack fs) fun fs2 => pureR (.recordLit fs2)
  | .unionType alts =>
      bindR (resolveAltsGo C fuel root stack alts) fun a2 => pureR (.unionType a2)
  | .importE i =>
      bindR (resolveImpGo C fuel root stack i) fun i2 =>
      bindR (resolveOne C fuel root stack i2) fun n => pureR (.embed n)
  | .embed n => pureR (.embed n)
  termination_by e => (fuel, 3, sizeOf e)

/-- Resolving traversal of an optional sub-expression. -/
def resolveOptGo [DecidableEq ν] (C : Collab ν τ) (fuel : Nat) (root : ImportRoot)
    (stack : List (ImportE ν)) : OptExpr ν → ResM ν (RFail (ImportError ν)) (OptExpr ν)
  | .noneE => pureR .noneE
  | .someE e => bindR (resolveExprGo C fuel root stack e) fun e2 => pureR (.someE e2)
  termination_by e => (fuel, 3, sizeOf e)

/-- Resolving traversal of a list of sub-expressions. -/
def resolveListGo [DecidableEq ν] (C : Collab ν τ) (fuel : Nat) (root : ImportRoot)
    (stack : List (ImportE ν)) : ExprList ν → ResM ν (RFail (ImportError ν)) (ExprList ν)
  | .nilE => pureR .nilE
  | .consE e rest =>
      bindR (resolveExprGo C fuel root stack e) fun e2 =>
      bindR (resolveListGo C fuel root stack rest) fun r2 => pureR (.consE e2 r2)
  termination_by xs => (fuel, 3, sizeOf xs)

/-- Resolving traversal of record fields. -/
def resolveFieldsGo [DecidableEq ν] (C : Collab ν τ) (fuel : Nat) (root : ImportRoot)
    (stack : List (ImportE ν)) : RecFields ν → ResM ν (RFail (ImportError ν)) (RecFields ν)
  | .nilF => pureR .nilF
  | .consF l e rest =>
      bindR (resolveExprGo C fuel root stack e) fun e2 =>
      bindR (resolveFieldsGo C fuel root stack rest) fun r2 => pureR (.consF l e2 r2)
  termination_by fs => (fuel, 3, sizeOf fs)

/-- Resolving traversal of union alternatives. -/
def resolveAltsGo [DecidableEq ν] (C : Collab ν τ) (fuel : Nat) (root : ImportRoot)
    (stack : List (ImportE ν)) : UnionAlts ν → ResM ν (RFail (ImportError ν)) (UnionAlts ν)
  | .nilU => pureR .nilU
  | .consU l e rest =>
      bindR (resolveOptGo C fuel root stack e) fun e2 =>
      bindR (resolveAltsGo C fuel root stack rest) fun r2 => pureR (.consU l e2 r2)
  termination_by a => (fuel, 3, sizeOf a)

/-- Resolving traversal of text chunks. -/
def resolveChunksGo [DecidableEq ν] (C : Collab ν τ) (fuel : Nat) (root : ImportRoot)
    (stack : List (ImportE ν)) : TextChunks ν → ResM ν (RFail (ImportError ν)) (TextChunks ν)
  | .nilT => pureR .nilT
  | .chunk s rest => bindR (resolveChunksGo C fuel root stack rest) fun r2 => pureR (.chunk s r2)
  | .interp e rest =>
      bindR (resolveExprGo C fuel root stack e) fun e2 =>
      bindR (resolveChunksGo C fuel root stack rest) fun r2 => pureR (.interp e2 r2)
  termination_by t => (fuel, 3, sizeOf t)

/-- Resolving traversal of the sub-expressions of an import node itself. -/
def resolveImpGo [DecidableEq ν] (C : Collab ν τ) (fuel : Nat) (root : ImportRoot)
    (stack : List (ImportE ν)) : ImportE ν → ResM ν (RFail (ImportError ν)) (ImportE ν)
  | .mk mode loc hash =>
      bindR (resolveLocGo C fuel root stack loc) fun l2 => pureR (.mk mode l2 hash)
  termination_by i => (fuel, 3, sizeOf i)

/-- Resolving traversal of an import location (only remote headers hold
sub-expressions). -/
def resolveLocGo [DecidableEq ν] (C : Collab ν τ) (fuel : Nat) (root : ImportRoot)
    (stack : List (ImportE ν)) : ImportLoc ν → ResM ν (RFail (ImportError ν)) (ImportLoc ν)
  | .localL p path => pureR (.localL p path)
  | .remote s auth path q hs =>
      bindR (resolveOptGo C fuel root stack hs) fun h2 => pureR (.remote s auth path q h2)
  | .envL n => pureR (.envL n)
  | .missing => pureR .missing
  termination_by l => (fuel, 3, sizeOf l)

/-- The resolve closure of do_resolve_expr (resolve.rs lines 66 to 90):
first the recursion stack is checked and a cycle is an ImportCycle error
naming the stack and the offending import; then the cache is consulted and
a hit is returned as-is; otherwise the import is pushed on a copy of the
stack, resolved recursively, and the result is added to the cache (the
ghost loads field records that completed load). -/
def resolveOne [DecidableEq ν] (C : Collab ν τ) (fuel : Nat) (root : ImportRoot)
    (stack : List (ImportE ν)) (i : ImportE ν) : ResM ν (RFail (ImportError ν)) ν := fun st =>
  if i ∈ stack then
    (st, Except.error (RFail.fail (ImportError.importCycle stack i)))
  else
    match cacheGet i st.cache with
    | some v => (st, Except.ok v)
    | none =>
      match resolveImport C fuel i root (stack ++ [i]) st with
      | (s1, Except.ok v) =>
          ({ cache := (i, v) :: s1.cache, loads := s1.loads ++ [i] }, Except.ok v)
      | (s1, Except.error e) => (s1, Except.error e)
  termination_by (fuel, 2, 0)

/-- resolve_import (resolve.rs lines 19 to 46): a Local import with Here or
Parent file prefix is loaded from the joined path, any load error being
wrapped into ImportError::Recursive; the Parent prefix panics when the root
has no parent (the unwrap at line 36); every other prefix and every other
location shape panics with unimplemented!. -/
def resolveImport [DecidableEq ν] (C : Collab ν τ) (fuel : Nat) (i : ImportE ν)
    (root : ImportRoot) (stack : List (ImportE ν)) : ResM ν (RFail (ImportError ν)) ν :=
  fun st =>
  match i with
  | .mk _ (ImportLoc.localL FilePfx.parent path) _ =>
      if root = [] then
        (st, Except.error (RFail.panicked "called Option::unwrap on a None value"))
      else wrapLoadRes i (loadImport C fuel (root.dropLast ++ path) stack st)
  | .mk _ (ImportLoc.localL FilePfx.here path) _ =>
      wrapLoadRes i (loadImport C fuel (root ++ path) stack st)
  | _ => (st, Except.error (RFail.panicked "not implemented"))
  termination_by (fuel, 1, 0)

/-- load_import (resolve.rs lines 48 to 58): parse the file, resolve the
parsed expression recursively, then typecheck and normalize.  Fuel bounds
the recursion depth of the embedding; an exhausted budget models a
non-terminating run. -/
def loadImport [DecidableEq ν] (C : Collab ν τ) (fuel : Nat) (path : List String)
    (stack : List (ImportE ν)) : ResM ν (RFail (ErrorE ν)) ν := fun st =>
  match C.parseFile path with
  | Except.error e => (st, Except.error (RFail.fail e))
  | Except.ok parsed =>
    match fuel with
    | 0 => (st, Except.error RFail.outOfFuel)
    | fuel' + 1 =>
      match resolveExprGo C fuel' parsed.root stack parsed.expr st with
      | (s1, Except.error (RFail.fail ie)) =>
          (s1, Except.error (RFail.fail (ErrorE.importErr ie)))
      | (s1, Except.error (RFail.panicked m)) => (s1, Except.error (RFail.panicked m))
      | (s1, Except.error RFail.outOfFuel) => (s1, Except.error RFail.outOfFuel)
      | (s1, Except.ok e2) =>
        match C.typecheckF e2 with
        | Except.error te => (s1, Except.error (RFail.fail (ErrorE.typecheckE te)))
        | Except.ok ty => (s1, Except.ok (C.normalizeF ty))
  termination_by (fuel, 0, 0)

end

/-- do_resolve_expr (resolve.rs lines 60 to 93): traverse the parsed
expression with the resolve closure, under a given cache state and import
stack. -/
def doResolveExpr [DecidableEq ν] (C : Collab ν τ) (fuel : Nat) (p : ParsedT ν)
    (stack : List (ImportE ν)) : ResM ν (RFail (ImportError ν)) (Expr ν) :=
  resolveExprGo C fuel p.root stack p.expr

/-- resolve (resolve.rs lines 95 to 97): do_resolve_expr started with a
fresh empty cache and an empty import stack. -/
def resolveTop [DecidableEq ν] (C : Collab ν τ) (fuel : Nat) (p : ParsedT ν) :
    RState ν × Except (RFail (ImportError ν)) (Expr ν) :=
  doResolveExpr C fuel p [] ⟨[], []⟩

/-- Inversion of bindR on a successful outcome. -/
theorem bindR_ok {p : ResM ν ε α} {k : α → ResM ν ε β} {st st' : RState ν} {b : β}
    (h : bindR p k st = (st', Except.ok b)) :
    ∃ a s1, p st = (s1, Except.ok a) ∧ k a s1 = (st', Except.ok b) := by
  unfold bindR at h
  rcases hp : p st with ⟨s1, r1⟩
  rw [hp] at h
  cases r1 with
  | ok a => exact ⟨a, s1, rfl, h⟩
  | error e => simp at h

/-- Inversion of pureR. -/
theorem pureR_ok {a b : α} {st st' : RState ν} (h : pureR (ε := ε) a st = (st', Except.ok b)) :
    st' = st ∧ b = a := by
  unfold pureR at h
  exact ⟨congrArg Prod.fst h.symm, (Except.ok.injEq _ _ ▸ congrArg Prod.snd h.symm).symm ▸ rfl⟩

/-- A trivial collaborator instance over the unit payload, used to
instantiate theorems at concrete inputs. -/
def unitCollab : Collab Unit Unit where
  parseFile _ := Except.error (ErrorE.parseE "no such file")
  typecheckF _ := Except.ok ()
  normalizeF _ := ()

/-- A concrete import: code mode, missing location, no hash. -/
def impMissing : ImportE Unit := ImportE.mk ImportMode.code ImportLoc.missing none

/-- C1: for every import graph containing a cycle — whenever the import
currently being resolved is already on the recursion stack of imports being
resolved — the resolve closure of do_resolve_expr fails with the
ImportCycle variant of ImportError, and the error carries the import stack
together with the offending import. -/
theorem resolveOne_cycle_error [DecidableEq ν] (C : Collab ν τ) (fuel : Nat)
    (root : ImportRoot) (stack : List (ImportE ν)) (i : ImportE ν) (st : RState ν)
    (h : i ∈ stack) :
    resolveOne C fuel root stack i st =
      (st, Except.error (RFail.fail (ImportError.importCycle stack i))) := by
  simp [resolveOne, h]

/-- Witness for resolveOne_cycle_error at a concrete cyclic stack. -/
theorem resolveOne_cycle_error_witness :
    impMissing ∈ [impMissing] ∧
    resolveOne unitCollab 1 [] [impMissing] impMissing ⟨[], []⟩ =
      (⟨[], []⟩,
        Except.error (RFail.fail (ImportError.importCycle [impMissing] impMissing))) :=
  ⟨List.mem_singleton.mpr rfl,
    resolveOne_cycle_error unitCollab 1 [] [impMissing] impMissing ⟨[], []⟩
      (List.mem_singleton.mpr rfl)⟩

set_option maxHeartbeats 2000000

mutual

/-- A successful resolving traversal returns an AST free of Import nodes and
ImportAlt operators. -/
theorem noImp_resolveExprGo [DecidableEq ν] {C : Collab ν τ} {fuel : Nat}
    {root : ImportRoot} {stack : List (ImportE ν)} {e : Expr ν} {st st' : RState ν}
    {e' : Expr ν} (h : resolveExprGo C fuel root stack e st = (st', Except.ok e')) :
    noImportsE e' = true := by
  cases e with
  | constE c => simp only [resolveExprGo] at h; obtain ⟨-, rfl⟩ := pureR_ok h; rfl
  | builtinE b => simp only [resolveExprGo] at h; obtain ⟨-, rfl⟩ := pureR_ok h; rfl
  | var v => simp only [resolveExprGo] at h; obtain ⟨-, rfl⟩ := pureR_ok h; rfl
  | lam x t b =>
    simp only [resolveExprGo] at h
    obtain ⟨t2, s1, ht, h⟩ := bindR_ok h
    obtain ⟨b2, s2, hb, h⟩ := bindR_ok h
    obtain ⟨-, rfl⟩ := pureR_ok h
    simp [noImportsE, noImp_resolveExprGo ht, noImp_resolveExprGo hb]
  | pi x t b =>
    simp only [resolveExprGo] at h
    obtain ⟨t2, s1, ht, h⟩ := bindR_ok h
    obtain ⟨b2, s2, hb, h⟩ := bindR_ok h
    obtain ⟨-, rfl⟩ := pureR_ok h
    simp [noImportsE, noImp_resolveExprGo ht, noImp_resolveExprGo hb]
  | letIn x a v b =>
    simp only [resolveExprGo] at h
    obtain ⟨a2, s1, ha, h⟩ := bindR_ok h
    obtain ⟨v2, s2, hv, h⟩ := bindR_ok h
    obtain ⟨b2, s3, hb, h⟩ := bindR_ok h
    obtain ⟨-, rfl⟩ := pureR_ok h
    simp [noImportsE, noImp_resolveOptGo ha, noImp_resolveExprGo hv, noImp_resolveExprGo hb]
  | app g a =>
    simp only [resolveExprGo] at h
    obtain ⟨g2, s1, hg, h⟩ := bindR_ok h
    obtain ⟨a2, s2, ha, h⟩ := bindR_ok h
    obtain ⟨-, rfl⟩ := pureR_ok h
    simp [noImportsE, noImp_resolveExprGo hg, noImp_resolveExprGo ha]
  | boolIf c t e =>
    simp only [resolveExprGo] at h
    obtain ⟨c2, s1, hc, h⟩ := bindR_ok h
    obtain ⟨t2, s2, ht, h⟩ := bindR_ok h
    obtain ⟨e2, s3, he, h⟩ := bindR_ok h
    obtain ⟨-, rfl⟩ := pureR_ok h
    simp [noImportsE, noImp_resolveExprGo hc, noImp_resolveExprGo ht, noImp_resolveExprGo he]
  | binOp op l r =>
    cases op
    case importAlt =>
      simp only [resolveExprGo] at h
      rcases hl : resolveExprGo C fuel root stack l st with ⟨s1, r1⟩
      rw [hl] at h
      cases r1 with
      | ok l2 =>
        cases h
        exact noImp_resolveExprGo hl
      | error err =>
        cases err with
        | fail e0 => exact noImp_resolveExprGo h
        | panicked m => simp at h
        | outOfFuel => simp at h
    all_goals
      simp only [resolveExprGo] at h
      obtain ⟨l2, s1, hl, h⟩ := bindR_ok h
      obtain ⟨r2, s2, hr, h⟩ := bindR_ok h
      obtain ⟨-, rfl⟩ := pureR_ok h
      simp [noImportsE, noImp_resolveExprGo hl, noImp_resolveExprGo hr]
  | boolLit b => simp only [resolveExprGo] at h; obtain ⟨-, rfl⟩ := pureR_ok h; rfl
  | naturalLit n => simp only [resolveExprGo] at h; obtain ⟨-, rfl⟩ := pureR_ok h; rfl
  | integerLit i => simp only [resolveExprGo] at h; obtain ⟨-, rfl⟩ := pureR_ok h; rfl
  | doubleLit d => simp only [resolveExprGo] at h; obtain ⟨-, rfl⟩ := pureR_ok h; rfl
  | textLit t =>
    simp only [resolveExprGo] at h
    obtain ⟨t2, s1, ht, h⟩ := bindR_ok h
    obtain ⟨-, rfl⟩ := pureR_ok h
    simpa [noImportsE] using noImp_resolveChunksGo ht
  | neListLit xs =>
    simp only [resolveExprGo] at h
    obtain ⟨xs2, s1, hx, h⟩ := bindR_ok h
    obtain ⟨-, rfl⟩ := pureR_ok h
    simpa [noImportsE] using noImp_resolveListGo hx
  | emptyListLit t =>
    simp only [resolveExprGo] at h
    obtain ⟨t2, s1, ht, h⟩ := bindR_ok h
    obtain ⟨-, rfl⟩ := pureR_ok h
    simpa [noImportsE] using noImp_resolveExprGo ht
  | someLit e =>
    simp only [resolveExprGo] at h
    obtain ⟨e2, s1, he, h⟩ := bindR_ok h
    obtain ⟨-, rfl⟩ := pureR_ok h
    simpa [noImportsE] using noImp_resolveExprGo he
  | field e l =>
    simp only [resolveExprGo] at h
    obtain ⟨e2, s1, he, h⟩ := bindR_ok h
    obtain ⟨-, rfl⟩ := pureR_ok h
    simpa [noImportsE] using noImp_resolveExprGo he
  | projection e ls =>
    simp only [resolveExprGo] at h
    obtain ⟨e2, s1, he, h⟩ := bindR_ok h
    obtain ⟨-, rfl⟩ := pureR_ok h
    simpa [noImportsE] using noImp_resolveExprGo he
  | merge hh u a =>
    simp only [resolveExprGo] at h
    obtain ⟨h2, s1, hh2, h⟩ := bindR_ok h
    obtain ⟨u2, s2, hu, h⟩ := bindR_ok h
    obtain ⟨a2, s3, ha, h⟩ := bindR_ok h
    obtain ⟨-, rfl⟩ := pureR_ok h
    simp [noImportsE, noImp_resolveExprGo hh2, noImp_resolveExprGo hu, noImp_resolveOptGo ha]
  | annotE e t =>
    simp only [resolveExprGo] at h
    obtain ⟨e2, s1, he, h⟩ := bindR_ok h
    obtain ⟨t2, s2, ht, h⟩ := bindR_ok h
    obtain ⟨-, rfl⟩ := pureR_ok h
    simp [noImportsE, noImp_resolveExprGo he, noImp_resolveExprGo ht]
  | assertE e =>
    simp only [resolveExprGo] at h
    obtain ⟨e2, s1, he, h⟩ := bindR_ok h
    obtain ⟨-, rfl⟩ := pureR_ok h
    simpa [noImportsE] using noImp_resolveExprGo he
  | recordType fs =>
    simp only [resolveExprGo] at h
    obtain ⟨fs2, s1, hf, h⟩ := bindR_ok h
    obtain ⟨-, rfl⟩ := pureR_ok h
    simpa [noImportsE] using noImp_resolveFieldsGo hf
  | recordLit fs =>
    simp only [resolveExprGo] at h
    obtain ⟨fs2, s1, hf, h⟩ := bindR_ok h
    obtain ⟨-, rfl⟩ := pureR_ok h
    simpa [noImportsE] using noImp_resolveFieldsGo hf
  | unionType alts =>
    simp only [resolveExprGo] at h
    obtain ⟨a2, s1, ha, h⟩ := bindR_ok h
    obtain ⟨-, rfl⟩ := pureR_ok h
    simpa [noImportsE] using noImp_resolveAltsGo ha
  | importE i =>
    simp only [resolveExprGo] at h
    obtain ⟨i2, s1, hi, h⟩ := bindR_ok h
    obtain ⟨n, s2, hn, h⟩ := bindR_ok h
    obtain ⟨-, rfl⟩ := pureR_ok h
    rfl
  | embed n => simp only [resolveExprGo] at h; obtain ⟨-, rfl⟩ := pureR_ok h; rfl
  termination_by sizeOf e

/-- Optional sub-expressions after a successful resolving traversal. -/
theorem noImp_resolveOptGo [DecidableEq ν] {C : Collab ν τ} {fuel : Nat}
    {root : ImportRoot} {stack : List (ImportE ν)} {a : OptExpr ν} {st st' : RState ν}
    {a' : OptExpr ν} (h : resolveOptGo C fuel root stack a st = (st', Except.ok a')) :
    noImportsOpt a' = true := by
  cases a with
  | noneE => simp only [resolveOptGo] at h; obtain ⟨-, rfl⟩ := pureR_ok h; rfl
  | someE e =>
    simp only [resolveOptGo] at h
    obtain ⟨e2, s1, he, h⟩ := bindR_ok h
    obtain ⟨-, rfl⟩ := pureR_ok h
    simpa [noImportsOpt] using noImp_resolveExprGo he
  termination_by sizeOf a

/-- Lists of sub-expressions after a successful resolving traversal. -/
theorem noImp_resolveListGo [DecidableEq ν] {C : Collab ν τ} {fuel : Nat}
    {root : ImportRoot} {stack : List (ImportE ν)} {xs : ExprList ν} {st st' : RState ν}
    {xs' : ExprList ν} (h : resolveListGo C fuel root stack xs st = (st', Except.ok xs')) :
    noImportsList xs' = true := by
  cases xs with
  | nilE => simp only [resolveListGo] at h; obtain ⟨-, rfl⟩ := pureR_ok h; rfl
  | consE e rest =>
    simp only [resolveListGo] at h
    obtain ⟨e2, s1, he, h⟩ := bindR_ok h
    obtain ⟨r2, s2, hr, h⟩ := bindR_ok h
    obtain ⟨-, rfl⟩ := pureR_ok h
    simp [noImportsList, noImp_resolveExprGo he, noImp_resolveListGo hr]
  termination_by sizeOf xs

/-- Record fields after a successful resolving traversal. -/
theorem noImp_resolveFieldsGo [DecidableEq ν] {C : Collab ν τ} {fuel : Nat}
    {root : ImportRoot} {stack : List (ImportE ν)} {fs : RecFields ν} {st st' : RState ν}
    {fs' : RecFields ν} (h : resolveFieldsGo C fuel root stack fs st = (st', Except.ok fs')) :
    noImportsFields fs' = true := by
  cases fs with
  | nilF => simp only [resolveFieldsGo] at h; obtain ⟨-, rfl⟩ := pureR_ok h; rfl
  | consF l e rest =>
    simp only [resolveFieldsGo] at h
    obtain ⟨e2, s1, he, h⟩ := bindR_ok h
    obtain ⟨r2, s2, hr, h⟩ := bindR_ok h
    obtain ⟨-, rfl⟩ := pureR_ok h
    simp [noImportsFields, noImp_resolveExprGo he, noImp_resolveFieldsGo hr]
  termination_by sizeOf fs

/-- Union alternatives after a successful resolving traversal. -/
theorem noImp_resolveAltsGo [DecidableEq ν] {C : Collab ν τ} {fuel : Nat}
    {root : ImportRoot} {stack : List (ImportE ν)} {al : UnionAlts ν} {st st' : RState ν}
    {al' : UnionAlts ν} (h : resolveAltsGo C fuel root stack al st = (st', Except.ok al')) :
    noImportsAlts al' = true := by
  cases al with
  | nilU => simp only [resolveAltsGo] at h; obtain ⟨-, rfl⟩ := pureR_ok h; rfl
  | consU l e rest =>
    simp only [resolveAltsGo] at h
    obtain ⟨e2, s1, he, h⟩ := bindR_ok h
    obtain ⟨r2, s2, hr, h⟩ := bindR_ok h
    obtain ⟨-, rfl⟩ := pureR_ok h
    simp [noImportsAlts, noImp_resolveOptGo he, noImp_resolveAltsGo hr]
  termination_by sizeOf al

/-- Text chunks after a successful resolving traversal. -/
theorem noImp_resolveChunksGo [DecidableEq ν] {C : Collab ν τ} {fuel : Nat}
    {root : ImportRoot} {stack : List (ImportE ν)} {t : TextChunks ν} {st st' : RState ν}
    {t' : TextChunks ν} (h : resolveChunksGo C fuel root stack t st = (st', Except.ok t')) :
    noImportsChunks t' = true := by
  cases t with
  | nilT => simp only [resolveChunksGo] at h; obtain ⟨-, rfl⟩ := pureR_ok h; rfl
  | chunk s rest =>
    simp only [resolveChunksGo] at h
    obtain ⟨r2, s1, hr, h⟩ := bindR_ok h
    obtain ⟨-, rfl⟩ := pureR_ok h
    simpa [noImportsChunks] using noImp_resolveChunksGo hr
  | interp e rest =>
    simp only [resolveChunksGo] at h
    obtain ⟨e2, s1, he, h⟩ := bindR_ok h
    obtain ⟨r2, s2, hr, h⟩ := bindR_ok h
    obtain ⟨-, rfl⟩ := pureR_ok h
    simp [noImportsChunks, noImp_resolveExprGo he, noImp_resolveChunksGo hr]
  termination_by sizeOf t

end

/-- A collaborator over Nat payloads whose file system always parses to the
literal 5, typechecking to the token 7 which normalizes to itself. -/
def natCollab : Collab Nat Nat where
  parseFile _ := Except.ok ⟨Expr.naturalLit 5, []⟩
  typecheckF _ := Except.ok 7
  normalizeF t := t

/-- A concrete local import of the file a, relative to the current root. -/
def impHereA : ImportE Nat :=
  ImportE.mk ImportMode.code (ImportLoc.localL FilePfx.here ["a"]) none

/-- C2: for every Parsed expression on which resolve succeeds, the resulting
Resolved AST contains no Import node and no ImportAlt binary operator
anywhere in it. -/
theorem resolve_no_imports_remain [DecidableEq ν] (C : Collab ν τ) (fuel : Nat)
    (p : ParsedT ν) (st' : RState ν) (e' : Expr ν)
    (h : resolveTop C fuel p = (st', Except.ok e')) : noImportsE e' = true :=
  noImp_resolveExprGo (by simpa [resolveTop, doResolveExpr] using h)

/-- Witness for resolve_no_imports_remain: resolving an expression that is a
single local import succeeds and embeds the normalized result, and the
claim theorem applies to that run. -/
theorem resolve_no_imports_remain_witness :
    resolveTop natCollab 2 ⟨Expr.importE impHereA, []⟩ =
      (⟨[(impHereA, 7)], [impHereA]⟩, Except.ok (Expr.embed 7)) ∧
    noImportsE (Expr.embed (ν := Nat) 7) = true := by
  have hrun : resolveTop natCollab 2 ⟨Expr.importE impHereA, []⟩ =
      (⟨[(impHereA, 7)], [impHereA]⟩, Except.ok (Expr.embed 7)) := by
    simp [resolveTop, doResolveExpr, resolveExprGo, resolveImpGo, resolveLocGo,
      resolveOne, resolveImport, loadImport, bindR, pureR, cacheGet, wrapLoadRes,
      natCollab, impHereA]
  exact ⟨hrun,
    resolve_no_imports_remain natCollab 2 ⟨Expr.importE impHereA, []⟩
      ⟨[(impHereA, 7)], [impHereA]⟩ (Expr.embed 7) hrun⟩

/-- Inversion of Except bind on a successful outcome. -/
theorem exceptBind_ok {p : Except ε α} {k : α → Except ε β} {b : β}
    (h : p >>= k = Except.ok b) : ∃ a, p = Except.ok a ∧ k a = Except.ok b := by
  cases p with
  | ok a => exact ⟨a, rfl, h⟩
  | error e => simp [Bind.bind, Except.bind] at h

/-- Inversion of Except bind on a failing outcome. -/
theorem exceptBind_error {p : Except ε α} {k : α → Except ε β} {err : ε}
    (h : p >>= k = Except.error err) :
    p = Except.error err ∨ ∃ a, p = Except.ok a ∧ k a = Except.error err := by
  cases p with
  | ok a => exact Or.inr ⟨a, rfl, h⟩
  | error e =>
    left
    simpa [Bind.bind, Except.bind] using h

mutual

/-- The traverse-resolve is the identity on import-free expressions,
whatever the resolve closure. -/
theorem travE_id {f : ImportE ν → Except ε ν} {e : Expr ν} (h : noImportsE e = true) :
    traverseResolveE f e = Except.ok e := by
  cases e with
  | constE c => rfl
  | builtinE b => rfl
  | var v => rfl
  | lam x t b =>
    simp only [noImportsE, Bool.and_eq_true] at h
    simp [traverseResolveE, Bind.bind, Except.bind, travE_id h.1, travE_id h.2]
  | pi x t b =>
    simp only [noImportsE, Bool.and_eq_true] at h
    simp [traverseResolveE, Bind.bind, Except.bind, travE_id h.1, travE_id h.2]
  | letIn x a v b =>
    simp only [noImportsE, Bool.and_eq_true] at h
    simp [traverseResolveE, Bind.bind, Except.bind, travOpt_id h.1.1, travE_id h.1.2,
      travE_id h.2]
  | app g a =>
    simp only [noImportsE, Bool.and_eq_true] at h
    simp [traverseResolveE, Bind.bind, Except.bind, travE_id h.1, travE_id h.2]
  | boolIf c t e =>
    simp only [noImportsE, Bool.and_eq_true] at h
    simp [traverseResolveE, Bind.bind, Except.bind, travE_id h.1.1, travE_id h.1.2,
      travE_id h.2]
  | binOp op l r =>
    simp only [noImportsE, Bool.and_eq_true, Bool.not_eq_true',
      decide_eq_false_iff_not] at h
    obtain ⟨⟨hop, hl⟩, hr⟩ := h
    cases op
    case importAlt => exact absurd rfl hop
    all_goals simp [traverseResolveE, Bind.bind, Except.bind, travE_id hl, travE_id hr]
  | boolLit b => rfl
  | naturalLit n => rfl
  | integerLit i => rfl
  | doubleLit d => rfl
  | textLit t =>
    simp only [noImportsE] at h
    simp [traverseResolveE, Bind.bind, Except.bind, travChunks_id h]
  | neListLit xs =>
    simp only [noImportsE] at h
    simp [traverseResolveE, Bind.bind, Except.bind, travList_id h]
  | emptyListLit t =>
    simp only [noImportsE] at h
    simp [traverseResolveE, Bind.bind, Except.bind, travE_id h]
  | someLit e =>
    simp only [noImportsE] at h
    simp [traverseResolveE, Bind.bind, Except.bind, travE_id h]
  | field e l =>
    simp only [noImportsE] at h
    simp [traverseResolveE, Bind.bind, Except.bind, travE_id h]
  | projection e ls =>
    simp only [noImportsE] at h
    simp [traverseResolveE, Bind.bind, Except.bind, travE_id h]
  | merge hh u a =>
    simp only [noImportsE, Bool.and_eq_true] at h
    simp [traverseResolveE, Bind.bind, Except.bind, travE_id h.1.1, travE_id h.1.2,
      travOpt_id h.2]
  | annotE e t =>
    simp only [noImportsE, Bool.and_eq_true] at h
    simp [traverseResolveE, Bind.bind, Except.bind, travE_id h.1, travE_id h.2]
  | assertE e =>
    simp only [noImportsE] at h
    simp [traverseResolveE, Bind.bind, Except.bind, travE_id h]
  | recordType fs =>
    simp only [noImportsE] at h
    simp [traverseResolveE, Bind.bind, Except.bind, travFields_id h]
  | recordLit fs =>
    simp only [noImportsE] at h
    simp [traverseResolveE, Bind.bind, Except.bind, travFields_id h]
  | unionType alts =>
    simp only [noImportsE] at h
    simp [traverseResolveE, Bind.bind, Except.bind, travAlts_id h]
  | importE i => simp [noImportsE] at h
  | embed n => rfl
  termination_by sizeOf e

/-- Identity of the traversal on import-free optional sub-expressions. -/
theorem travOpt_id {f : ImportE ν → Except ε ν} {a : OptExpr ν}
    (h : noImportsOpt a = true) : traverseResolveOpt f a = Except.ok a := by
  cases a with
  | noneE => rfl
  | someE e =>
    simp only [noImportsOpt] at h
    simp [traverseResolveOpt, Bind.bind, Except.bind, travE_id h]
  termination_by sizeOf a

/-- Identity of the traversal on import-free expression lists. -/
theorem travList_id {f : ImportE ν → Except ε ν} {xs : ExprList ν}
    (h : noImportsList xs = true) : traverseResolveList f xs = Except.ok xs := by
  cases xs with
  | nilE => rfl
  | consE e rest =>
    simp only [noImportsList, Bool.and_eq_true] at h
    simp [traverseResolveList, Bind.bind, Except.bind, travE_id h.1, travList_id h.2]
  termination_by sizeOf xs

/-- Identity of the traversal on import-free record fields. -/
theorem travFields_id {f : ImportE ν → Except ε ν} {fs : RecFields ν}
    (h : noImportsFields fs = true) : traverseResolveFields f fs = Except.ok fs := by
  cases fs with
  | nilF => rfl
  | consF l e rest =>
    simp only [noImportsFields, Bool.and_eq_true] at h
    simp [traverseResolveFields, Bind.bind, Except.bind, travE_id h.1, travFields_id h.2]
  termination_by sizeOf fs

/-- Identity of the traversal on import-free union alternatives. -/
theorem travAlts_id {f : ImportE ν → Except ε ν} {al : UnionAlts ν}
    (h : noImportsAlts al = true) : traverseResolveAlts f al = Except.ok al := by
  cases al with
  | nilU => rfl
  | consU l e rest =>
    simp only [noImportsAlts, Bool.and_eq_true] at h
    simp [traverseResolveAlts, Bind.bind, Except.bind, travOpt_id h.1, travAlts_id h.2]
  termination_by sizeOf al

/-- Identity of the traversal on import-free text chunks. -/
theorem travChunks_id {f : ImportE ν → Except ε ν} {t : TextChunks ν}
    (h : noImportsChunks t = true) : traverseResolveChunks f t = Except.ok t := by
  cases t with
  | nilT => rfl
  | chunk s rest =>
    simp only [noImportsChunks] at h
    simp [traverseResolveChunks, Bind.bind, Except.bind, travChunks_id h]
  | interp e rest =>
    simp only [noImportsChunks, Bool.and_eq_true] at h
    simp [traverseResolveChunks, Bind.bind, Except.bind, travE_id h.1, travChunks_id h.2]
  termination_by sizeOf t

end

mutual

/-- A successful pure traversal returns an AST free of Import nodes and
ImportAlt operators. -/
theorem travE_ok_noImports {f : ImportE ν → Except ε ν} {e e' : Expr ν}
    (h : traverseResolveE f e = Except.ok e') : noImportsE e' = true := by
  cases e with
  | constE c => cases h; rfl
  | builtinE b => cases h; rfl
  | var v => cases h; rfl
  | lam x t b =>
    simp only [traverseResolveE] at h
    obtain ⟨t2, ht, h⟩ := exceptBind_ok h
    obtain ⟨b2, hb, h⟩ := exceptBind_ok h
    cases h
    simp [noImportsE, travE_ok_noImports ht, travE_ok_noImports hb]
  | pi x t b =>
    simp only [traverseResolveE] at h
    obtain ⟨t2, ht, h⟩ := exceptBind_ok h
    obtain ⟨b2, hb, h⟩ := exceptBind_ok h
    cases h
    simp [noImportsE, travE_ok_noImports ht, travE_ok_noImports hb]
  | letIn x a v b =>
    simp only [traverseResolveE] at h
    obtain ⟨a2, ha, h⟩ := exceptBind_ok h
    obtain ⟨v2, hv, h⟩ := exceptBind_ok h
    obtain ⟨b2, hb, h⟩ := exceptBind_ok h
    cases h
    simp [noImportsE, travOpt_ok_noImports ha, travE_ok_noImports hv, travE_ok_noImports hb]
  | app g a =>
    simp only [traverseResolveE] at h
    obtain ⟨g2, hg, h⟩ := exceptBind_ok h
    obtain ⟨a2, ha, h⟩ := exceptBind_ok h
    cases h
    simp [noImportsE, travE_ok_noImports hg, travE_ok_noImports ha]
  | boolIf c t e =>
    simp only [traverseResolveE] at h
    obtain ⟨c2, hc, h⟩ := exceptBind_ok h
    obtain ⟨t2, ht, h⟩ := exceptBind_ok h
    obtain ⟨e2, he, h⟩ := exceptBind_ok h
    cases h
    simp [noImportsE, travE_ok_noImports hc, travE_ok_noImports ht, travE_ok_noImports he]
  | binOp op l r =>
    cases op
    case importAlt =>
      simp only [traverseResolveE] at h
      cases hl : traverseResolveE f l with
      | ok l2 =>
        rw [hl] at h
        cases h
        exact travE_ok_noImports hl
      | error e0 =>
        rw [hl] at h
        exact travE_ok_noImports h
    all_goals
      simp only [traverseResolveE] at h
      obtain ⟨l2, hl, h⟩ := exceptBind_ok h
      obtain ⟨r2, hr, h⟩ := exceptBind_ok h
      cases h
      simp [noImportsE, travE_ok_noImports hl, travE_ok_noImports hr]
  | boolLit b => cases h; rfl
  | naturalLit n => cases h; rfl
  | integerLit i => cases h; rfl
  | doubleLit d => cases h; rfl
  | textLit t =>
    simp only [traverseResolveE] at h
    obtain ⟨t2, ht, h⟩ := exceptBind_ok h
    cases h
    simpa [noImportsE] using travChunks_ok_noImports ht
  | neListLit xs =>
    simp only [traverseResolveE] at h
    obtain ⟨xs2, hx, h⟩ := exceptBind_ok h
    cases h
    simpa [noImportsE] using travList_ok_noImports hx
  | emptyListLit t =>
    simp only [traverseResolveE] at h
    obtain ⟨t2, ht, h⟩ := exceptBind_ok h
    cases h
    simpa [noImportsE] using travE_ok_noImports ht
  | someLit e =>
    simp only [traverseResolveE] at h
    obtain ⟨e2, he, h⟩ := exceptBind_ok h
    cases h
    simpa [noImportsE] using travE_ok_noImports he
  | field e l =>
    simp only [traverseResolveE] at h
    obtain ⟨e2, he, h⟩ := exceptBind_ok h
    cases h
    simpa [noImportsE] using travE_ok_noImports he
  | projection e ls =>
    simp only [traverseResolveE] at h
    obtain ⟨e2, he, h⟩ := exceptBind_ok h
    cases h
    simpa [noImportsE] using travE_ok_noImports he
  | merge hh u a =>
    simp only [traverseResolveE] at h
    obtain ⟨h2, hh2, h⟩ := exceptBind_ok h
    obtain ⟨u2, hu, h⟩ := exceptBind_ok h
    obtain ⟨a2, ha, h⟩ := exceptBind_ok h
    cases h
    simp [noImportsE, travE_ok_noImports hh2, travE_ok_noImports hu, travOpt_ok_noImports ha]
  | annotE e t =>
    simp only [traverseResolveE] at h
    obtain ⟨e2, he, h⟩ := exceptBind_ok h
    obtain ⟨t2, ht, h⟩ := exceptBind_ok h
    cases h
    simp [noImportsE, travE_ok_noImports he, travE_ok_noImports ht]
  | assertE e =>
    simp only [traverseResolveE] at h
    obtain ⟨e2, he, h⟩ := exceptBind_ok h
    cases h
    simpa [noImportsE] using travE_ok_noImports he
  | recordType fs =>
    simp only [traverseResolveE] at h
    obtain ⟨fs2, hf, h⟩ := exceptBind_ok h
    cases h
    simpa [noImportsE] using travFields_ok_noImports hf
  | recordLit fs =>
    simp only [traverseResolveE] at h
    obtain ⟨fs2, hf, h⟩ := exceptBind_ok h
    cases h
    simpa [noImportsE] using travFields_ok_noImports hf
  | unionType alts =>
    simp only [traverseResolveE] at h
    obtain ⟨a2, ha, h⟩ := exceptBind_ok h
    cases h
    simpa [noImportsE] using travAlts_ok_noImports ha
  | importE i =>
    simp only [traverseResolveE] at h
    obtain ⟨i2, hi, h⟩ := exceptBind_ok h
    obtain ⟨n, hn, h⟩ := exceptBind_ok h
    cases h
    rfl
  | embed n => cases h; rfl
  termination_by sizeOf e

/-- Optional sub-expressions after a successful pure traversal. -/
theorem travOpt_ok_noImports {f : ImportE ν → Except ε ν} {a a' : OptExpr ν}
    (h : traverseResolveOpt f a = Except.ok a') : noImportsOpt a' = true := by
  cases a with
  | noneE => cases h; rfl
  | someE e =>
    simp only [traverseResolveOpt] at h
    obtain ⟨e2, he, h⟩ := exceptBind_ok h
    cases h
    simpa [noImportsOpt] using travE_ok_noImports he
  termination_by sizeOf a

/-- Expression lists after a successful pure traversal. -/
theorem travList_ok_noImports {f : ImportE ν → Except ε ν} {xs xs' : ExprList ν}
    (h : traverseResolveList f xs = Except.ok xs') : noImportsList xs' = true := by
  cases xs with
  | nilE => cases h; rfl
  | consE e rest =>
    simp only [traverseResolveList] at h
    obtain ⟨e2, he, h⟩ := exceptBind_ok h
    obtain ⟨r2, hr, h⟩ := exceptBind_ok h
    cases h
    simp [noImportsList, travE_ok_noImports he, travList_ok_noImports hr]
  termination_by sizeOf xs

/-- Record fields after a successful pure traversal. -/
theorem travFields_ok_noImports {f : ImportE ν → Except ε ν} {fs fs' : RecFields ν}
    (h : traverseResolveFields f fs = Except.ok fs') : noImportsFields fs' = true := by
  cases fs with
  | nilF => cases h; rfl
  | consF l e rest =>
    simp only [traverseResolveFields] at h
    obtain ⟨e2, he, h⟩ := exceptBind_ok h
    obtain ⟨r2, hr, h⟩ := exceptBind_ok h
    cases h
    simp [noImportsFields, travE_ok_noImports he, travFields_ok_noImports hr]
  termination_by sizeOf fs

/-- Union alternatives after a successful pure traversal. -/
theorem travAlts_ok_noImports {f : ImportE ν → Except ε ν} {al al' : UnionAlts ν}
    (h : traverseResolveAlts f al = Except.ok al') : noImportsAlts al' = true := by
  cases al with
  | nilU => cases h; rfl
  | consU l e rest =>
    simp only [traverseResolveAlts] at h
    obtain ⟨e2, he, h⟩ := exceptBind_ok h
    obtain ⟨r2, hr, h⟩ := exceptBind_ok h
    cases h
    simp [noImportsAlts, travOpt_ok_noImports he, travAlts_ok_noImports hr]
  termination_by sizeOf al

/-- Text chunks after a successful pure traversal. -/
theorem travChunks_ok_noImports {f : ImportE ν → Except ε ν} {t t' : TextChunks ν}
    (h : traverseResolveChunks f t = Except.ok t') : noImportsChunks t' = true := by
  cases t with
  | nilT => cases h; rfl
  | chunk s rest =>
    simp only [traverseResolveChunks] at h
    obtain ⟨r2, hr, h⟩ := exceptBind_ok h
    cases h
    simpa [noImportsChunks] using travChunks_ok_noImports hr
  | interp e rest =>
    simp only [traverseResolveChunks] at h
    obtain ⟨e2, he, h⟩ := exceptBind_ok h
    obtain ⟨r2, hr, h⟩ := exceptBind_ok h
    cases h
    simp [noImportsChunks, travE_ok_noImports he, travChunks_ok_noImports hr]
  termination_by sizeOf t

end

mutual

/-- Every error of the pure traversal originates from the resolve closure:
if every error the closure returns satisfies P, so does every error of the
traversal. -/
theorem travE_err {f : ImportE ν → Except ε ν} {P : ε → Prop}
    (hf : ∀ i err, f i = Except.error err → P err) {e : Expr ν} {err : ε}
    (h : traverseResolveE f e = Except.error err) : P err := by
  cases e with
  | constE c => simp [traverseResolveE] at h
  | builtinE b => simp [traverseResolveE] at h
  | var v => simp [traverseResolveE] at h
  | lam x t b =>
    simp only [traverseResolveE] at h
    rcases exceptBind_error h with h | ⟨t2, ht, h⟩
    · exact travE_err hf h
    rcases exceptBind_error h with h | ⟨b2, hb, h⟩
    · exact travE_err hf h
    simp at h
  | pi x t b =>
    simp only [traverseResolveE] at h
    rcases exceptBind_error h with h | ⟨t2, ht, h⟩
    · exact travE_err hf h
    rcases exceptBind_error h with h | ⟨b2, hb, h⟩
    · exact travE_err hf h
    simp at h
  | letIn x a v b =>
    simp only [traverseResolveE] at h
    rcases exceptBind_error h with h | ⟨a2, ha, h⟩
    · exact travOpt_err hf h
    rcases exceptBind_error h with h | ⟨v2, hv, h⟩
    · exact travE_err hf h
    rcases exceptBind_error h with h | ⟨b2, hb, h⟩
    · exact travE_err hf h
    simp at h
  | app g a =>
    simp only [traverseResolveE] at h
    rcases exceptBind_error h with h | ⟨g2, hg, h⟩
    · exact travE_err hf h
    rcases exceptBind_error h with h | ⟨a2, ha, h⟩
    · exact travE_err hf h
    simp at h
  | boolIf c t e =>
    simp only [traverseResolveE] at h
    rcases exceptBind_error h with h | ⟨c2, hc, h⟩
    · exact travE_err hf h
    rcases exceptBind_error h with h | ⟨t2, ht, h⟩
    · exact travE_err hf h
    rcases exceptBind_error h with h | ⟨e2, he, h⟩
    · exact travE_err hf h
    simp at h
  | binOp op l r =>
    cases op
    case importAlt =>
      simp only [traverseResolveE] at h
      cases hl : traverseResolveE f l with
      | ok l2 => rw [hl] at h; simp at h
      | error e0 => rw [hl] at h; exact travE_err hf h
    all_goals
      simp only [traverseResolveE] at h
      rcases exceptBind_error h with h | ⟨l2, hl, h⟩
      · exact travE_err hf h
      rcases exceptBind_error h with h | ⟨r2, hr, h⟩
      · exact travE_err hf h
      simp at h
  | boolLit b => simp [traverseResolveE] at h
  | naturalLit n => simp [traverseResolveE] at h
  | integerLit i => simp [traverseResolveE] at h
  | doubleLit d => simp [traverseResolveE] at h
  | textLit t =>
    simp only [traverseResolveE] at h
    rcases exceptBind_error h with h | ⟨t2, ht, h⟩
    · exact travChunks_err hf h
    simp at h
  | neListLit xs =>
    simp only [traverseResolveE] at h
    rcases exceptBind_error h with h | ⟨xs2, hx, h⟩
    · exact travList_err hf h
    simp at h
  | emptyListLit t =>
    simp only [traverseResolveE] at h
    rcases exceptBind_error h with h | ⟨t2, ht, h⟩
    · exact travE_err hf h
    simp at h
  | someLit e =>
    simp only [traverseResolveE] at h
    rcases exceptBind_error h with h | ⟨e2, he, h⟩
    · exact travE_err hf h
    simp at h
  | field e l =>
    simp only [traverseResolveE] at h
    rcases exceptBind_error h with h | ⟨e2, he, h⟩
    · exact travE_err hf h
    simp at h
  | projection e ls =>
    simp only [traverseResolveE] at h
    rcases exceptBind_error h with h | ⟨e2, he, h⟩
    · exact travE_err hf h
    simp at h
  | merge hh u a =>
    simp only [traverseResolveE] at h
    rcases exceptBind_error h with h | ⟨h2, hh2, h⟩
    · exact travE_err hf h
    rcases exceptBind_error h with h | ⟨u2, hu, h⟩
    · exact travE_err hf h
    rcases exceptBind_error h with h | ⟨a2, ha, h⟩
    · exact travOpt_err hf h
    simp at h
  | annotE e t =>
    simp only [traverseResolveE] at h
    rcases exceptBind_error h with h | ⟨e2, he, h⟩
    · exact travE_err hf h
    rcases exceptBind_error h with h | ⟨t2, ht, h⟩
    · exact travE_err hf h
    simp at h
  | assertE e =>
    simp only [traverseResolveE] at h
    rcases exceptBind_error h with h | ⟨e2, he, h⟩
    · exact travE_err hf h
    simp at h
  | recordType fs =>
    simp only [traverseResolveE] at h
    rcases exceptBind_error h with h | ⟨fs2, hfs, h⟩
    · exact travFields_err hf h
    simp at h
  | recordLit fs =>
    simp only [traverseResolveE] at h
    rcases exceptBind_error h with h | ⟨fs2, hfs, h⟩
    · exact travFields_err hf h
    simp at h
  | unionType alts =>
    simp only [traverseResolveE] at h
    rcases exceptBind_error h with h | ⟨a2, ha, h⟩
    · exact travAlts_err hf h
    simp at h
  | importE i =>
    simp only [traverseResolveE] at h
    rcases exceptBind_error h with h | ⟨i2, hi, h⟩
    · exact travImp_err hf h
    rcases exceptBind_error h with h | ⟨n, hn, h⟩
    · exact hf _ _ h
    simp at h
  | embed n => simp [traverseResolveE] at h
  termination_by sizeOf e

/-- Errors of the traversal of an optional sub-expression originate from
the closure. -/
theorem travOpt_err {f : ImportE ν → Except ε ν} {P : ε → Prop}
    (hf : ∀ i err, f i = Except.error err → P err) {a : OptExpr ν} {err : ε}
    (h : traverseResolveOpt f a = Except.error err) : P err := by
  cases a with
  | noneE => simp [traverseResolveOpt] at h
  | someE e =>
    simp only [traverseResolveOpt] at h
    rcases exceptBind_error h with h | ⟨e2, he, h⟩
    · exact travE_err hf h
    simp at h
  termination_by sizeOf a

/-- Errors of the traversal of an expression list originate from the
closure. -/
theorem travList_err {f : ImportE ν → Except ε ν} {P : ε → Prop}
    (hf : ∀ i err, f i = Except.error err → P err) {xs : ExprList ν} {err : ε}
    (h : traverseResolveList f xs = Except.error err) : P err := by
  cases xs with
  | nilE => simp [traverseResolveList] at h
  | consE e rest =>
    simp only [traverseResolveList] at h
    rcases exceptBind_error h with h | ⟨e2, he, h⟩
    · exact travE_err hf h
    rcases exceptBind_error h with h | ⟨r2, hr, h⟩
    · exact travList_err hf h
    simp at h
  termination_by sizeOf xs

/-- Errors of the traversal of record fields originate from the closure. -/
theorem travFields_err {f : ImportE ν → Except ε ν} {P : ε → Prop}
    (hf : ∀ i err, f i = Except.error err → P err) {fs : RecFields ν} {err : ε}
    (h : traverseResolveFields f fs = Except.error err) : P err := by
  cases fs with
  | nilF => simp [traverseResolveFields] at h
  | consF l e rest =>
    simp only [traverseResolveFields] at h
    rcases exceptBind_error h with h | ⟨e2, he, h⟩
    · exact travE_err hf h
    rcases exceptBind_error h with h | ⟨r2, hr, h⟩
    · exact travFields_err hf h
    simp at h
  termination_by sizeOf fs

/-- Errors of the traversal of union alternatives originate from the
closure. -/
theorem travAlts_err {f : ImportE ν → Except ε ν} {P : ε → Prop}
    (hf : ∀ i err, f i = Except.error err → P err) {al : UnionAlts ν} {err : ε}
    (h : traverseResolveAlts f al = Except.error err) : P err := by
  cases al with
  | nilU => simp [traverseResolveAlts] at h
  | consU l e rest =>
    simp only [traverseResolveAlts] at h
    rcases exceptBind_error h with h | ⟨e2, he, h⟩
    · exact travOpt_err hf h
    rcases exceptBind_error h with h | ⟨r2, hr, h⟩
    · exact travAlts_err hf h
    simp at h
  termination_by sizeOf al

/-- Errors of the traversal of text chunks originate from the closure. -/
theorem travChunks_err {f : ImportE ν → Except ε ν} {P : ε → Prop}
    (hf : ∀ i err, f i = Except.error err → P err) {t : TextChunks ν} {err : ε}
    (h : traverseResolveChunks f t = Except.error err) : P err := by
  cases t with
  | nilT => simp [traverseResolveChunks] at h
  | chunk s rest =>
    simp only [traverseResolveChunks] at h
    rcases exceptBind_error h with h | ⟨r2, hr, h⟩
    · exact travChunks_err hf h
    simp at h
  | interp e rest =>
    simp only [traverseResolveChunks] at h
    rcases exceptBind_error h with h | ⟨e2, he, h⟩
    · exact travE_err hf h
    rcases exceptBind_error h with h | ⟨r2, hr, h⟩
    · exact travChunks_err hf h
    simp at h
  termination_by sizeOf t

/-- Errors of the traversal of an import node originate from the closure. -/
theorem travImp_err {f : ImportE ν → Except ε ν} {P : ε → Prop}
    (hf : ∀ i err, f i = Except.error err → P err) {i : ImportE ν} {err : ε}
    (h : traverseResolveImp f i = Except.error err) : P err := by
  cases i with
  | mk mode loc hash =>
    simp only [traverseResolveImp] at h
    rcases exceptBind_error h with h | ⟨l2, hl, h⟩
    · exact travLoc_err hf h
    simp at h
  termination_by sizeOf i

/-- Errors of the traversal of an import location originate from the
closure. -/
theorem travLoc_err {f : ImportE ν → Except ε ν} {P : ε → Prop}
    (hf : ∀ i err, f i = Except.error err → P err) {loc : ImportLoc ν} {err : ε}
    (h : traverseResolveLoc f loc = Except.error err) : P err := by
  cases loc with
  | localL p path => simp [traverseResolveLoc] at h
  | remote s auth path q hs =>
    simp only [traverseResolveLoc] at h
    rcases exceptBind_error h with h | ⟨h2, hh, h⟩
    · exact travOpt_err hf h
    simp at h
  | envL n => simp [traverseResolveLoc] at h
  | missing => simp [traverseResolveLoc] at h
  termination_by sizeOf loc

end

/-- C10 (amended): skip_resolve performs no input-output; it returns the
expression unchanged when the expression is import-free; a successful run
always returns an import-free expression (ImportAlt nodes are pruned to an
alternative that needed no import); and every failure is an
UnexpectedImport error naming the blocking import. -/
theorem skip_resolve_spec (p : ParsedT ν) :
    (noImportsE p.expr = true → skipResolveExpr p = Except.ok p.expr) ∧
    (∀ e', skipResolveExpr p = Except.ok e' → noImportsE e' = true) ∧
    (∀ err, skipResolveExpr p = Except.error err →
      ∃ i, err = ImportError.unexpectedImport i) := by
  refine ⟨fun h => travE_id h, fun e' h => travE_ok_noImports h, fun err h => ?_⟩
  exact travE_err (P := fun err => ∃ i, err = ImportError.unexpectedImport i)
    (fun i err hi => ⟨i, (Except.error.inj hi).symm⟩) h

/-- Witness for skip_resolve_spec: an import-free literal passes through
skip_resolve unchanged. -/
theorem skip_resolve_spec_witness :
    skipResolveExpr (ν := Unit) ⟨Expr.naturalLit 3, []⟩ =
      Except.ok (Expr.naturalLit 3) :=
  (skip_resolve_spec ⟨Expr.naturalLit 3, []⟩).1 rfl

/-- Counterexample to C10 as frozen: this Parsed expression contains an
Import node (its import-free check is false), yet skip_resolve succeeds and
returns the right alternative of the ImportAlt, because the failing left
alternative is discarded by the traversal. -/
theorem skip_resolve_counterexample :
    noImportsE (Expr.binOp BinOpK.importAlt (Expr.importE impMissing)
      (Expr.naturalLit 1)) = false ∧
    skipResolveExpr ⟨Expr.binOp BinOpK.importAlt (Expr.importE impMissing)
      (Expr.naturalLit 1), []⟩ = Except.ok (Expr.naturalLit 1) := by
  exact ⟨rfl, rfl⟩

/-- Resolver state invariant: the completed loads are pairwise distinct and
each of them is present in the cache. -/
def InvS (st : RState ν) : Prop :=
  st.loads.Nodup ∧ ∀ j ∈ st.loads, j ∈ cacheKeys st.cache

/-- Postcondition of a resolver step under an ambient import stack: the
invariant is preserved, and an import of the stack that is absent from the
cache stays absent (an import still being resolved is never inserted by its
own sub-computations, as any attempt hits the cycle check). -/
def PostR (stack : List (ImportE ν)) (st st' : RState ν) : Prop :=
  (InvS st → InvS st') ∧
  ∀ j ∈ stack, j ∉ cacheKeys st.cache → j ∉ cacheKeys st'.cache

/-- PostR is reflexive. -/
theorem postR_rfl {stack : List (ImportE ν)} {st : RState ν} : PostR stack st st :=
  ⟨id, fun _ _ h => h⟩

/-- PostR composes along sequencing. -/
theorem postR_trans {stack : List (ImportE ν)} {s0 s1 s2 : RState ν}
    (h1 : PostR stack s0 s1) (h2 : PostR stack s1 s2) : PostR stack s0 s2 :=
  ⟨fun h => h2.1 (h1.1 h), fun j hj hc => h2.2 j hj (h1.2 j hj hc)⟩

/-- PostR for a longer stack entails PostR for a shorter one. -/
theorem postR_mono {stack stack' : List (ImportE ν)} {st st' : RState ν}
    (hs : ∀ j ∈ stack, j ∈ stack') (h : PostR stack' st st') : PostR stack st st' :=
  ⟨h.1, fun j hj => h.2 j (hs j hj)⟩

/-- PostR for the pure computation. -/
theorem postR_pureR {stack : List (ImportE ν)} (a : α) (st : RState ν) :
    PostR stack st ((pureR (ε := ε) a) st).1 :=
  postR_rfl

/-- PostR propagates through bindR. -/
theorem postR_bind {stack : List (ImportE ν)} {p : ResM ν ε α} {k : α → ResM ν ε β}
    (hp : ∀ st, PostR stack st (p st).1) (hk : ∀ a st, PostR stack st (k a st).1) :
    ∀ st, PostR stack st (bindR p k st).1 := by
  intro st
  unfold bindR
  rcases hps : p st with ⟨s1, r1⟩
  have h1 := hp st
  rw [hps] at h1
  cases r1 with
  | ok a => exact postR_trans h1 (hk a s1)
  | error e => exact h1

/-- An import without a cache entry is not among the cache keys. -/
theorem cacheGet_none_not_mem [DecidableEq ν] {i : ImportE ν} :
    ∀ {c : List (ImportE ν × ν)}, cacheGet i c = none → i ∉ cacheKeys c := by
  intro c
  induction c with
  | nil => intro _ hm; simp [cacheKeys] at hm
  | cons kv rest ih =>
    rcases kv with ⟨k, v⟩
    intro h hm
    simp only [cacheGet] at h
    by_cases hk : k = i
    · rw [if_pos hk] at h; cases h
    · rw [if_neg hk] at h
      have hm' : i = k ∨ i ∈ cacheKeys rest := by
        simpa [cacheKeys] using hm
      rcases hm' with h1 | h2
      · exact hk h1.symm
      · exact ih h h2

/-- The state component of wrapLoadRes is that of the wrapped outcome. -/
theorem wrapLoadRes_fst (i : ImportE ν) (r : RState ν × Except (RFail (ErrorE ν)) ν) :
    (wrapLoadRes i r).1 = r.1 := by
  rcases r with ⟨s, e⟩
  cases e with
  | ok v => rfl
  | error err => cases err <;> rfl

mutual

/-- Every resolving traversal step satisfies PostR. -/
theorem postR_resolveExprGo [DecidableEq ν] (C : Collab ν τ) (fuel : Nat)
    (root : ImportRoot) (stack : List (ImportE ν)) (e : Expr ν) :
    ∀ st, PostR stack st ((resolveExprGo C fuel root stack e) st).1 := by
  cases e with
  | constE c => simp only [resolveExprGo]; exact fun st => postR_rfl
  | builtinE b => simp only [resolveExprGo]; exact fun st => postR_rfl
  | var v => simp only [resolveExprGo]; exact fun st => postR_rfl
  | lam x t b =>
    simp only [resolveExprGo]
    exact postR_bind (postR_resolveExprGo C fuel root stack t) fun t2 =>
      postR_bind (postR_resolveExprGo C fuel root stack b) fun b2 => postR_pureR _
  | pi x t b =>
    simp only [resolveExprGo]
    exact postR_bind (postR_resolveExprGo C fuel root stack t) fun t2 =>
      postR_bind (postR_resolveExprGo C fuel root stack b) fun b2 => postR_pureR _
  | letIn x a v b =>
    simp only [resolveExprGo]
    exact postR_bind (postR_resolveOptGo C fuel root stack a) fun a2 =>
      postR_bind (postR_resolveExprGo C fuel root stack v) fun v2 =>
      postR_bind (postR_resolveExprGo C fuel root stack b) fun b2 => postR_pureR _
  | app g a =>
    simp only [resolveExprGo]
    exact postR_bind (postR_resolveExprGo C fuel root stack g) fun g2 =>
      postR_bind (postR_resolveExprGo C fuel root stack a) fun a2 => postR_pureR _
  | boolIf c t e =>
    simp only [resolveExprGo]
    exact postR_bind (postR_resolveExprGo C fuel root stack c) fun c2 =>
      postR_bind (postR_resolveExprGo C fuel root stack t) fun t2 =>
      postR_bind (postR_resolveExprGo C fuel root stack e) fun e2 => postR_pureR _
  | binOp op l r =>
    cases op
    case importAlt =>
      simp only [resolveExprGo]
      intro st
      rcases hl : resolveExprGo C fuel root stack l st with ⟨s1, r1⟩
      have h1 := postR_resolveExprGo C fuel root stack l st
      rw [hl] at h1
      cases r1 with
      | ok l2 => exact h1
      | error err =>
        cases err with
        | fail e0 => exact postR_trans h1 (postR_resolveExprGo C fuel root stack r s1)
        | panicked m => exact h1
        | outOfFuel => exact h1
    all_goals
      simp only [resolveExprGo]
      exact postR_bind (postR_resolveExprGo C fuel root stack l) fun l2 =>
        postR_bind (postR_resolveExprGo C fuel root stack r) fun r2 => postR_pureR _
  | boolLit b => simp only [resolveExprGo]; exact fun st => postR_rfl
  | naturalLit n => simp only [resolveExprGo]; exact fun st => postR_rfl
  | integerLit i => simp only [resolveExprGo]; exact fun st => postR_rfl
  | doubleLit d => simp only [resolveExprGo]; exact fun st => postR_rfl
  | textLit t =>
    simp only [resolveExprGo]
    exact postR_bind (postR_resolveChunksGo C fuel root stack t) fun t2 => postR_pureR _
  | neListLit xs =>
    simp only [resolveExprGo]
    exact postR_bind (postR_resolveListGo C fuel root stack xs) fun xs2 => postR_pureR _
  | emptyListLit t =>
    simp only [resolveExprGo]
    exact postR_bind (postR_resolveExprGo C fuel root stack t) fun t2 => postR_pureR _
  | someLit e =>
    simp only [resolveExprGo]
    exact postR_bind (postR_resolveExprGo C fuel root stack e) fun e2 => postR_pureR _
  | field e l =>
    simp only [resolveExprGo]
    exact postR_bind (postR_resolveExprGo C fuel root stack e) fun e2 => postR_pureR _
  | projection e ls =>
    simp only [resolveExprGo]
    exact postR_bind (postR_resolveExprGo C fuel root stack e) fun e2 => postR_pureR _
  | merge hh u a =>
    simp only [resolveExprGo]
    exact postR_bind (postR_resolveExprGo C fuel root stack hh) fun h2 =>
      postR_bind (postR_resolveExprGo C fuel root stack u) fun u2 =>
      postR_bind (postR_resolveOptGo C fuel root stack a) fun a2 => postR_pureR _
  | annotE e t =>
    simp only [resolveExprGo]
    exact postR_bind (postR_resolveExprGo C fuel root stack e) fun e2 =>
      postR_bind (postR_resolveExprGo C fuel root stack t) fun t2 => postR_pureR _
  | assertE e =>
    simp only [resolveExprGo]
    exact postR_bind (postR_resolveExprGo C fuel root stack e) fun e2 => postR_pureR _
  | recordType fs =>
    simp only [resolveExprGo]
    exact postR_bind (postR_resolveFieldsGo C fuel root stack fs) fun f2 => postR_pureR _
  | recordLit fs =>
    simp only [resolveExprGo]
    exact postR_bind (postR_resolveFieldsGo C fuel root stack fs) fun f2 => postR_pureR _
  | unionType alts =>
    simp only [resolveExprGo]
    exact postR_bind (postR_resolveAltsGo C fuel root stack alts) fun a2 => postR_pureR _
  | importE i =>
    simp only [resolveExprGo]
    exact postR_bind (postR_resolveImpGo C fuel root stack i) fun i2 =>
      postR_bind (postR_resolveOne C fuel root stack i2) fun n => postR_pureR _
  | embed n => simp only [resolveExprGo]; exact fun st => postR_rfl
  termination_by (fuel, 3, sizeOf e)

/-- PostR for the optional sub-expression traversal. -/
theorem postR_resolveOptGo [DecidableEq ν] (C : Collab ν τ) (fuel : Nat)
    (root : ImportRoot) (stack : List (ImportE ν)) (a : OptExpr ν) :
    ∀ st, PostR stack st ((resolveOptGo C fuel root stack a) st).1 := by
  cases a with
  | noneE => simp only [resolveOptGo]; exact fun st => postR_rfl
  | someE e =>
    simp only [resolveOptGo]
    exact postR_bind (postR_resolveExprGo C fuel root stack e) fun e2 => postR_pureR _
  termination_by (fuel, 3, sizeOf a)

/-- PostR for the list traversal. -/
theorem postR_resolveListGo [DecidableEq ν] (C : Collab ν τ) (fuel : Nat)
    (root : ImportRoot) (stack : List (ImportE ν)) (xs : ExprList ν) :
    ∀ st, PostR stack st ((resolveListGo C fuel root stack xs) st).1 := by
  cases xs with
  | nilE => simp only [resolveListGo]; exact fun st => postR_rfl
  | consE e rest =>
    simp only [resolveListGo]
    exact postR_bind (postR_resolveExprGo C fuel root stack e) fun e2 =>
      postR_bind (postR_resolveListGo C fuel root stack rest) fun r2 => postR_pureR _
  termination_by (fuel, 3, sizeOf xs)

/-- PostR for the record-field traversal. -/
theorem postR_resolveFieldsGo [DecidableEq ν] (C : Collab ν τ) (fuel : Nat)
    (root : ImportRoot) (stack : List (ImportE ν)) (fs : RecFields ν) :
    ∀ st, PostR stack st ((resolveFieldsGo C fuel root stack fs) st).1 := by
  cases fs with
  | nilF => simp only [resolveFieldsGo]; exact fun st => postR_rfl
  | consF l e rest =>
    simp only [resolveFieldsGo]
    exact postR_bind (postR_resolveExprGo C fuel root stack e) fun e2 =>
      postR_bind (postR_resolveFieldsGo C fuel root stack rest) fun r2 => postR_pureR _
  termination_by (fuel, 3, sizeOf fs)

/-- PostR for the union-alternative traversal. -/
theorem postR_resolveAltsGo [DecidableEq ν] (C : Collab ν τ) (fuel : Nat)
    (root : ImportRoot) (stack : List (ImportE ν)) (al : UnionAlts ν) :
    ∀ st, PostR stack st ((resolveAltsGo C fuel root stack al) st).1 := by
  cases al with
  | nilU => simp only [resolveAltsGo]; exact fun st => postR_rfl
  | consU l e rest =>
    simp only [resolveAltsGo]
    exact postR_bind (postR_resolveOptGo C fuel root stack e) fun e2 =>
      postR_bind (postR_resolveAltsGo C fuel root stack rest) fun r2 => postR_pureR _
  termination_by (fuel, 3, sizeOf al)

/-- PostR for the text-chunk traversal. -/
theorem postR_resolveChunksGo [DecidableEq ν] (C : Collab ν τ) (fuel : Nat)
    (root : ImportRoot) (stack : List (ImportE ν)) (t : TextChunks ν) :
    ∀ st, PostR stack st ((resolveChunksGo C fuel root stack t) st).1 := by
  cases t with
  | nilT => simp only [resolveChunksGo]; exact fun st => postR_rfl
  | chunk s rest =>
    simp only [resolveChunksGo]
    exact postR_bind (postR_resolveChunksGo C fuel root stack rest) fun r2 => postR_pureR _
  | interp e rest =>
    simp only [resolveChunksGo]
    exact postR_bind (postR_resolveExprGo C fuel root stack e) fun e2 =>
      postR_bind (postR_resolveChunksGo C fuel root stack rest) fun r2 => postR_pureR _
  termination_by (fuel, 3, sizeOf t)

/-- PostR for the import-node traversal. -/
theorem postR_resolveImpGo [DecidableEq ν] (C : Collab ν τ) (fuel : Nat)
    (root : ImportRoot) (stack : List (ImportE ν)) (i : ImportE ν) :
    ∀ st, PostR stack st ((resolveImpGo C fuel root stack i) st).1 := by
  cases i with
  | mk mode loc hash =>
    simp only [resolveImpGo]
    exact postR_bind (postR_resolveLocGo C fuel root stack loc) fun l2 => postR_pureR _
  termination_by (fuel, 3, sizeOf i)

/-- PostR for the import-location traversal. -/
theorem postR_resolveLocGo [DecidableEq ν] (C : Collab ν τ) (fuel : Nat)
    (root : ImportRoot) (stack : List (ImportE ν)) (loc : ImportLoc ν) :
    ∀ st, PostR stack st ((resolveLocGo C fuel root stack loc) st).1 := by
  cases loc with
  | localL p path => simp only [resolveLocGo]; exact fun st => postR_rfl
  | remote s auth path q hs =>
    simp only [resolveLocGo]
    exact postR_bind (postR_resolveOptGo C fuel root stack hs) fun h2 => postR_pureR _
  | envL n => simp only [resolveLocGo]; exact fun st => postR_rfl
  | missing => simp only [resolveLocGo]; exact fun st => postR_rfl
  termination_by (fuel, 3, sizeOf loc)

/-- PostR for the resolve closure: the import being completed is recorded
exactly once and cached; imports still on the stack stay uncached. -/
theorem postR_resolveOne [DecidableEq ν] (C : Collab ν τ) (fuel : Nat)
    (root : ImportRoot) (stack : List (ImportE ν)) (i : ImportE ν) :
    ∀ st, PostR stack st ((resolveOne C fuel root stack i) st).1 := by
  intro st
  simp only [resolveOne]
  by_cases hmem : i ∈ stack
  · rw [if_pos hmem]; exact postR_rfl
  · rw [if_neg hmem]
    cases hc : cacheGet i st.cache with
    | some v => exact postR_rfl
    | none =>
      rcases hr : resolveImport C fuel i root (stack ++ [i]) st with ⟨s1, r1⟩
      have h1 : PostR (stack ++ [i]) st s1 := by
        have h0 := postR_resolveImport C fuel i root (stack ++ [i]) st
        rw [hr] at h0
        exact h0
      cases r1 with
      | error e => exact postR_mono (fun j hj => List.mem_append_left _ hj) h1
      | ok v =>
        have hnotcache : i ∉ cacheKeys st.cache := cacheGet_none_not_mem hc
        have hnot1 : i ∉ cacheKeys s1.cache :=
          h1.2 i (List.mem_append_right _ (List.mem_singleton.mpr rfl)) hnotcache
        constructor
        · intro hInv
          have hInv1 : InvS s1 := h1.1 hInv
          have hload : i ∉ s1.loads := fun hl => hnot1 (hInv1.2 i hl)
          constructor
          · rw [List.nodup_append]
            exact ⟨hInv1.1, List.nodup_singleton i, by
              intro a ha hb
              rw [List.mem_singleton] at hb
              exact hload (hb ▸ ha)⟩
          · intro j hj
            rcases List.mem_append.mp hj with hj1 | hj2
            · have : j ∈ cacheKeys s1.cache := hInv1.2 j hj1
              exact List.mem_cons_of_mem _ this
            · rw [List.mem_singleton] at hj2
              exact hj2 ▸ List.mem_cons_self _ _
        · intro j hj hjc
          intro hmem2
          rcases List.mem_cons.mp hmem2 with h1' | h2'
          · have hji : j = i := h1'
            exact hmem (hji ▸ hj)
          · exact h1.2 j (List.mem_append_left _ hj) hjc h2'
  termination_by (fuel, 2, 0)

/-- PostR for resolve_import. -/
theorem postR_resolveImport [DecidableEq ν] (C : Collab ν τ) (fuel : Nat) (i : ImportE ν)
    (root : ImportRoot) (stack : List (ImportE ν)) :
    ∀ st, PostR stack st ((resolveImport C fuel i root stack) st).1 := by
  intro st
  rcases i with ⟨mode, loc, hash⟩
  cases loc with
  | localL pfx path =>
    cases pfx with
    | absolute => simp only [resolveImport]; exact postR_rfl
    | here =>
      simp only [resolveImport]
      rw [wrapLoadRes_fst]
      exact postR_loadImport C fuel (root ++ path) stack st
    | parent =>
      simp only [resolveImport]
      by_cases hroot : root = []
      · rw [if_pos hroot]; exact postR_rfl
      · rw [if_neg hroot]
        rw [wrapLoadRes_fst]
        exact postR_loadImport C fuel (root.dropLast ++ path) stack st
    | home => simp only [resolveImport]; exact postR_rfl
  | remote s auth path q hs => simp only [resolveImport]; exact postR_rfl
  | envL n => simp only [resolveImport]; exact postR_rfl
  | missing => simp only [resolveImport]; exact postR_rfl
  termination_by (fuel, 1, 0)

/-- PostR for load_import. -/
theorem postR_loadImport [DecidableEq ν] (C : Collab ν τ) (fuel : Nat) (path : List String)
    (stack : List (ImportE ν)) :
    ∀ st, PostR stack st ((loadImport C fuel path stack) st).1 := by
  intro st
  simp only [loadImport]
  split
  · exact postR_rfl
  · rename_i parsed hp
    split
    · exact postR_rfl
    · rename_i fuel' hfuel
      have hpost := postR_resolveExprGo C hfuel parsed.root stack parsed.expr st
      split
      case _ s1 ie heq => rw [heq] at hpost; exact hpost
      case _ s1 m heq => rw [heq] at hpost; exact hpost
      case _ s1 heq => rw [heq] at hpost; exact hpost
      case _ s1 e2 heq =>
        rw [heq] at hpost
        split
        · exact hpost
        · exact hpost
  termination_by (fuel, 0, 0)

end

/-- C4 (amended): the resolve closure checks the recursion stack first
(cycle error), then the cache, a hit being returned as-is with no load and
no state change; otherwise the import is loaded, resolved, typechecked,
normalized and cached, and within one top-level resolve call each
distinct import completes that pipeline at most once (the ghost load history of a
run started on the fresh state is duplicate-free).  The cache is scoped to
the top-level resolve call, not to the process. -/
theorem resolver_cache_discipline [DecidableEq ν] (C : Collab ν τ) (fuel : Nat)
    (root : ImportRoot) (stack : List (ImportE ν)) (i : ImportE ν) (st : RState ν)
    (v : ν) (p : ParsedT ν) :
    (i ∈ stack → resolveOne C fuel root stack i st =
      (st, Except.error (RFail.fail (ImportError.importCycle stack i)))) ∧
    (i ∉ stack → cacheGet i st.cache = some v →
      resolveOne C fuel root stack i st = (st, Except.ok v)) ∧
    (resolveTop C fuel p).1.loads.Nodup := by
  refine ⟨fun h => by simp [resolveOne, h], fun h hc => by simp [resolveOne, h, hc], ?_⟩
  have h0 : InvS (ν := ν) ⟨[], []⟩ := ⟨List.nodup_nil, by simp⟩
  have h1 := postR_resolveExprGo C fuel p.root [] p.expr ⟨[], []⟩
  exact (h1.1 h0).1

/-- Witness for resolver_cache_discipline: a cache hit is served as-is, and
the load history of a concrete run is duplicate-free. -/
theorem resolver_cache_discipline_witness :
    resolveOne natCollab 1 [] [] impHereA ⟨[(impHereA, 7)], []⟩ =
      (⟨[(impHereA, 7)], []⟩, Except.ok 7) ∧
    (resolveTop natCollab 2 ⟨Expr.importE impHereA, []⟩).1.loads.Nodup :=
  ⟨(resolver_cache_discipline natCollab 1 [] [] impHereA ⟨[(impHereA, 7)], []⟩ 7
      ⟨Expr.naturalLit 0, []⟩).2.1 (by simp) (by simp [cacheGet]),
   (resolver_cache_discipline natCollab 2 [] [] impHereA ⟨[], []⟩ 7
      ⟨Expr.importE impHereA, []⟩).2.2⟩

/-- Counterexample to the process-scoped cache of C4 as frozen: resolve
starts every top-level call on a fresh empty cache (resolve.rs line 96), so
a second top-level call on the same program loads the same import again
rather than serving it from a process-wide cache; the combined load history
of two successive runs repeats the import. -/
theorem resolve_cache_not_process_scoped :
    (resolveTop natCollab 2 ⟨Expr.importE impHereA, []⟩).1.loads ++
      (resolveTop natCollab 2 ⟨Expr.importE impHereA, []⟩).1.loads =
      [impHereA, impHereA] ∧
    ¬ ((resolveTop natCollab 2 ⟨Expr.importE impHereA, []⟩).1.loads ++
      (resolveTop natCollab 2 ⟨Expr.importE impHereA, []⟩).1.loads).Nodup := by
  have hrun : (resolveTop natCollab 2 ⟨Expr.importE impHereA, []⟩).1.loads = [impHereA] := by
    simp [resolveTop, doResolveExpr, resolveExprGo, resolveImpGo, resolveLocGo,
      resolveOne, resolveImport, loadImport, bindR, pureR, cacheGet, wrapLoadRes,
      natCollab, impHereA]
  rw [hrun]
  exact ⟨rfl, by simp⟩

/-- A proper error coming out of wrapLoadRes is always a Recursive
wrapping of a load error. -/
theorem wrapLoadRes_fail_inv {i : ImportE ν} {r : RState ν × Except (RFail (ErrorE ν)) ν}
    {err : ImportError ν} (h : (wrapLoadRes i r).2 = Except.error (RFail.fail err)) :
    ∃ e, err = ImportError.recursive i e := by
  rcases r with ⟨s, o⟩
  cases o with
  | ok v => simp [wrapLoadRes] at h
  | error f =>
    cases f with
    | fail e =>
      simp only [wrapLoadRes] at h
      exact ⟨e, (RFail.fail.inj (Except.error.inj h)).symm⟩
    | panicked m => simp [wrapLoadRes] at h
    | outOfFuel => simp [wrapLoadRes] at h

/-- A concrete local here import over the unit payload. -/
def impHereUnit : ImportE Unit :=
  ImportE.mk ImportMode.code (ImportLoc.localL FilePfx.here ["f"]) none

/-- C5 (amended): resolve_import reports failures as ImportError values only
for Local imports with the Here prefix, or the Parent prefix when the root
has a parent, and then every proper error is an ImportError::Recursive
wrapping of the load error; for the Parent prefix with a parentless root it
panics on the unwrap, and for every other prefix (Absolute, Home) and
every other location shape (Remote, Env, Missing) it aborts with the
unimplemented! panic instead of returning an ImportError. -/
theorem resolve_import_failure_modes [DecidableEq ν] (C : Collab ν τ) (fuel : Nat)
    (mode : ImportMode) (hash : Option Hash) (root : ImportRoot)
    (stack : List (ImportE ν)) (st : RState ν) :
    (∀ path err,
      (resolveImport C fuel (ImportE.mk mode (ImportLoc.localL FilePfx.here path) hash)
          root stack st).2 = Except.error (RFail.fail err) →
      ∃ e, err = ImportError.recursive
        (ImportE.mk mode (ImportLoc.localL FilePfx.here path) hash) e) ∧
    (∀ path err, root ≠ [] →
      (resolveImport C fuel (ImportE.mk mode (ImportLoc.localL FilePfx.parent path) hash)
          root stack st).2 = Except.error (RFail.fail err) →
      ∃ e, err = ImportError.recursive
        (ImportE.mk mode (ImportLoc.localL FilePfx.parent path) hash) e) ∧
    (∀ path, root = [] →
      (resolveImport C fuel (ImportE.mk mode (ImportLoc.localL FilePfx.parent path) hash)
          root stack st).2 =
        Except.error (RFail.panicked "called Option::unwrap on a None value")) ∧
    (∀ path,
      (resolveImport C fuel (ImportE.mk mode (ImportLoc.localL FilePfx.absolute path) hash)
          root stack st).2 = Except.error (RFail.panicked "not implemented")) ∧
    (∀ path,
      (resolveImport C fuel (ImportE.mk mode (ImportLoc.localL FilePfx.home path) hash)
          root stack st).2 = Except.error (RFail.panicked "not implemented")) ∧
    (∀ s auth path q hs,
      (resolveImport C fuel (ImportE.mk mode (ImportLoc.remote s auth path q hs) hash)
          root stack st).2 = Except.error (RFail.panicked "not implemented")) ∧
    (∀ n,
      (resolveImport C fuel (ImportE.mk mode (ImportLoc.envL n) hash)
          root stack st).2 = Except.error (RFail.panicked "not implemented")) ∧
    (resolveImport C fuel (ImportE.mk mode ImportLoc.missing hash)
        root stack st).2 = Except.error (RFail.panicked "not implemented") := by
  refine ⟨?_, ?_, ?_, ?_, ?_, ?_, ?_, ?_⟩
  · intro path err h
    simp only [resolveImport] at h
    exact wrapLoadRes_fail_inv h
  · intro path err hroot h
    simp only [resolveImport, if_neg hroot] at h
    exact wrapLoadRes_fail_inv h
  · intro path hroot
    simp [resolveImport, hroot]
  · intro path; simp [resolveImport]
  · intro path; simp [resolveImport]
  · intro s auth path q hs; simp [resolveImport]
  · intro n; simp [resolveImport]
  · simp [resolveImport]

/-- Witness for resolve_import_failure_modes: the Parent prefix panics on a
parentless root, and a failing Here import is wrapped into Recursive. -/
theorem resolve_import_failure_modes_witness :
    (resolveImport unitCollab 1
        (ImportE.mk ImportMode.code (ImportLoc.localL FilePfx.parent ["a"]) none)
        [] [] ⟨[], []⟩).2 =
      Except.error (RFail.panicked "called Option::unwrap on a None value") ∧
    (∃ e, ImportError.recursive impHereUnit (ErrorE.parseE "no such file") =
      ImportError.recursive impHereUnit e) :=
  ⟨(resolve_import_failure_modes unitCollab 1 ImportMode.code none [] [] ⟨[], []⟩).2.2.1
      ["a"] rfl,
   (resolve_import_failure_modes unitCollab 1 ImportMode.code none [] [] ⟨[], []⟩).1
      ["f"] (ImportError.recursive impHereUnit (ErrorE.parseE "no such file"))
      (by simp [resolveImport, loadImport, wrapLoadRes, unitCollab, impHereUnit])⟩

/-- Counterexample to C5 as frozen: an import with the Missing location is
not reported upward as an ImportError; resolve_import aborts with the
unimplemented! panic. -/
theorem resolve_import_missing_panics :
    resolveImport unitCollab 1 impMissing [] [] ⟨[], []⟩ =
      (⟨[], []⟩, Except.error (RFail.panicked "not implemented")) ∧
    ∀ err : ImportError Unit,
      (resolveImport unitCollab 1 impMissing [] [] ⟨[], []⟩).2 ≠
        Except.error (RFail.fail err) := by
  have hres : resolveImport unitCollab 1 impMissing [] [] ⟨[], []⟩ =
      (⟨[], []⟩, Except.error (RFail.panicked "not implemented")) := by
    simp [resolveImport, impMissing]
  refine ⟨hres, fun err h => ?_⟩
  rw [hres] at h
  simp at h

/-- A context item, translated from CtxItem in dhall/src/core/context.rs: a
binder kept as a variable (its AlphaVar and its type) or replaced by a
value.  The type α models Value and β models AlphaVar; their own
definitions live in value.rs and var.rs, which are not under src/, so they
stay abstract here. -/
inductive CtxItem (α β : Type) where
  | kept (v : β) (t : α)
  | replaced (e : α)

/-- The typechecking context, translated from TypecheckContext in
dhall/src/core/context.rs: an ordered list of labelled items, innermost
last (entries are pushed at the end). -/
structure TypecheckContext (α β : Type) where
  items : List (Label × CtxItem α β)

/-- Equality on typechecking contexts, translated from the PartialEq impl
at context.rs lines 138 to 145: contexts are not counted when comparing, so
every comparison returns true. -/
def TypecheckContext.beq (c1 c2 : TypecheckContext α β) : Bool := true

/-- C7: equality on typechecking contexts is trivial: it returns true for
every pair regardless of contents, and is therefore degenerately reflexive,
symmetric and transitive. -/
theorem context_eq_trivial (c1 c2 c3 : TypecheckContext α β) :
    TypecheckContext.beq c1 c2 = true ∧
    TypecheckContext.beq c1 c1 = true ∧
    TypecheckContext.beq c1 c2 = TypecheckContext.beq c2 c1 ∧
    TypecheckContext.beq c1 c3 = true :=
  ⟨rfl, rfl, rfl, rfl⟩

/-- Over-binder arithmetic for a variable crossing one binder while walking
the context innermost-first.  Modelled from the spec: sections 4.1 and 4.3
— x@0 at a binder labelled x is that binder (found, nothing returned); x@n
with n positive drops to x@(n-1); a different label passes through
unchanged (V::over_binder of var.rs is not under src/). -/
def overBinder (v : V) (l : Label) : Option V :=
  if v.name = l then
    if v.idx = 0 then none else some ⟨v.name, v.idx - 1⟩
  else some v

/-- The value returned for a found context item, translated from context.rs
lines 41 to 46: a kept binder becomes a variable value carrying its stored
type, a replaced binder yields its stored value. -/
def ctxItemValue (mkVar : β → α → α) : CtxItem α β → α
  | CtxItem.kept newvar t => mkVar newvar t
  | CtxItem.replaced e => e

/-- The lookup loop of TypecheckContext::lookup (context.rs lines 34 to 56)
over the already-reversed item list: thread the variable through
over_binder, counting kept binders per label into the shift map; on a hit
the item is first adjusted by under_multiple_binders (umb, an operation of
the missing value.rs and var.rs, abstract here) and then converted by
ctxItemValue, where mkVar stands for building the variable Value
(Value::from_valuef_and_type of a Var, abstract here). -/
def lookupGo (umb : (Label → Nat) → CtxItem α β → CtxItem α β)
    (mkVar : β → α → α) : V → (Label → Nat) → List (Label × CtxItem α β) → Option α
  | _, _, [] => none
  | v, m, (l, it) :: rest =>
    match overBinder v l with
    | none => some (ctxItemValue mkVar (umb m it))
    | some v2 =>
      lookupGo umb mkVar v2
        (match it with
          | CtxItem.kept _ _ => fun y => if y = l then m y + 1 else m y
          | CtxItem.replaced _ => m) rest

/-- TypecheckContext::lookup (context.rs lines 34 to 56): walk the items
innermost-first (reversed), starting from an empty shift map. -/
def TypecheckContext.lookup (umb : (Label → Nat) → CtxItem α β → CtxItem α β)
    (mkVar : β → α → α) (ctx : TypecheckContext α β) (v : V) : Option α :=
  lookupGo umb mkVar v (fun _ => 0) ctx.items.reverse

/-- Reference selection following the claim: walking innermost-first,
return the n-th entry whose label is x, counting only entries labelled x
and passing over the others, together with the passed-over entries; nothing
when fewer than n+1 entries carry the label. -/
def nthLabelled (x : Label) : Nat → List (Label × CtxItem α β) →
    Option (List (Label × CtxItem α β) × CtxItem α β)
  | _, [] => none
  | n, (l, it) :: rest =>
    if l = x then
      match n with
      | 0 => some ([], it)
      | n + 1 => (nthLabelled x n rest).map fun p => ((l, it) :: p.1, p.2)
    else (nthLabelled x n rest).map fun p => ((l, it) :: p.1, p.2)

/-- The shift map accumulated over passed entries: one increment per kept
binder, per label, folded in walking order over a base map. -/
def addKept (m : Label → Nat) : List (Label × CtxItem α β) → Label → Nat
  | [] => m
  | (l, CtxItem.kept _ _) :: rest => addKept (fun y => if y = l then m y + 1 else m y) rest
  | (_, CtxItem.replaced _) :: rest => addKept m rest

/-- Lookup in the claim's words: select the n-th-from-innermost entry
labelled x, and wrap it with the shift map of the passed entries. -/
def lookupSpec (umb : (Label → Nat) → CtxItem α β → CtxItem α β)
    (mkVar : β → α → α) (x : Label) (n : Nat)
    (items : List (Label × CtxItem α β)) : Option α :=
  match nthLabelled x n items with
  | none => none
  | some (passed, it) => some (ctxItemValue mkVar (umb (addKept (fun _ => 0) passed) it))

/-- Number of entries labelled x. -/
def countLabel (x : Label) (items : List (Label × CtxItem α β)) : Nat :=
  items.countP fun p => decide (p.1 = x)

/-- The lookup loop agrees with the reference selection, for any base shift
map. -/
theorem lookupGo_eq_spec (umb : (Label → Nat) → CtxItem α β → CtxItem α β)
    (mkVar : β → α → α) :
    ∀ (items : List (Label × CtxItem α β)) (x : Label) (n : Nat) (m : Label → Nat),
    lookupGo umb mkVar ⟨x, n⟩ m items =
      (match nthLabelled x n items with
       | none => none
       | some (passed, it) => some (ctxItemValue mkVar (umb (addKept m passed) it))) := by
  intro items
  induction items with
  | nil => intro x n m; rfl
  | cons hd rest ih =>
    intro x n m
    rcases hd with ⟨l, it⟩
    by_cases hl : l = x
    · subst hl
      cases n with
      | zero =>
        simp [lookupGo, overBinder, nthLabelled, addKept]
      | succ n =>
        have hstep : lookupGo umb mkVar ⟨l, n + 1⟩ m ((l, it) :: rest) =
            lookupGo umb mkVar ⟨l, n⟩
              (match it with
                | CtxItem.kept _ _ => fun y => if y = l then m y + 1 else m y
                | CtxItem.replaced _ => m) rest := by
          simp [lookupGo, overBinder]
        rw [hstep]
        cases it with
        | kept bv t =>
          rw [ih l n _]
          simp only [nthLabelled, if_pos rfl]
          cases hnth : nthLabelled l n rest with
          | none => rfl
          | some p => rcases p with ⟨passed, it2⟩; simp [addKept]
        | replaced e =>
          rw [ih l n _]
          simp only [nthLabelled, if_pos rfl]
          cases hnth : nthLabelled l n rest with
          | none => rfl
          | some p => rcases p with ⟨passed, it2⟩; simp [addKept]
    · have hxl : ¬x = l := fun h => hl h.symm
      have hstep : lookupGo umb mkVar ⟨x, n⟩ m ((l, it) :: rest) =
          lookupGo umb mkVar ⟨x, n⟩
            (match it with
              | CtxItem.kept _ _ => fun y => if y = l then m y + 1 else m y
              | CtxItem.replaced _ => m) rest := by
        simp [lookupGo, overBinder, hxl]
      rw [hstep]
      cases it with
      | kept bv t =>
        rw [ih x n _]
        simp only [nthLabelled, if_neg hl]
        cases hnth : nthLabelled x n rest with
        | none => rfl
        | some p => rcases p with ⟨passed, it2⟩; simp [addKept]
      | replaced e =>
        rw [ih x n _]
        simp only [nthLabelled, if_neg hl]
        cases hnth : nthLabelled x n rest with
        | none => rfl
        | some p => rcases p with ⟨passed, it2⟩; simp [addKept]

/-- The reference selection succeeds exactly below the label count. -/
theorem nthLabelled_isSome_iff (x : Label) :
    ∀ (items : List (Label × CtxItem α β)) (n : Nat),
    (nthLabelled x n items).isSome ↔ n < countLabel x items := by
  intro items
  induction items with
  | nil => intro n; simp [nthLabelled, countLabel]
  | cons hd rest ih =>
    intro n
    rcases hd with ⟨l, it⟩
    by_cases hl : l = x
    · subst hl
      cases n with
      | zero => simp [nthLabelled, countLabel, List.countP_cons]
      | succ n =>
        have hstep : nthLabelled l (n + 1) ((l, it) :: rest) =
            (nthLabelled l n rest).map fun p => ((l, it) :: p.1, p.2) := by
          simp [nthLabelled]
        rw [hstep]
        have hiff := ih n
        cases hnth : nthLabelled l n rest with
        | none =>
          rw [hnth] at hiff
          simp only [Option.isSome_none, Bool.false_eq_true, false_iff, not_lt] at hiff
          simp only [countLabel, List.countP_cons] at hiff ⊢
          simp
          omega
        | some p =>
          rw [hnth] at hiff
          simp only [Option.isSome_some, true_iff] at hiff
          simp only [countLabel, List.countP_cons] at hiff ⊢
          simp
          omega
    · have hstep : nthLabelled x n ((l, it) :: rest) =
          (nthLabelled x n rest).map fun p => ((l, it) :: p.1, p.2) := by
        simp [nthLabelled, hl]
      rw [hstep]
      have hiff := ih n
      cases hnth : nthLabelled x n rest with
      | none =>
        rw [hnth] at hiff
        simp only [Option.isSome_none, Bool.false_eq_true, false_iff, not_lt] at hiff
        simp only [countLabel, List.countP_cons] at hiff ⊢
        simp [hl]
        omega
      | some p =>
        rw [hnth] at hiff
        simp only [Option.isSome_some, true_iff] at hiff
        simp only [countLabel, List.countP_cons] at hiff ⊢
        simp [hl]
        omega

/-- Label counts are stable under reversal. -/
theorem countLabel_reverse (x : Label) (items : List (Label × CtxItem α β)) :
    countLabel x items.reverse = countLabel x items := by
  induction items with
  | nil => rfl
  | cons hd rest ih =>
    simp [countLabel, List.reverse_cons, List.countP_append, List.countP_cons] at ih ⊢

/-- C6: looking up x@n walks the context innermost-first, counts only
entries labelled x, passes over the others, and resolves to the
n-th-from-innermost entry labelled x (adjusted by the shift map of the
passed entries); when the context holds fewer than n+1 entries labelled x
the lookup returns nothing. -/
theorem context_lookup_resolves (umb : (Label → Nat) → CtxItem α β → CtxItem α β)
    (mkVar : β → α → α) (ctx : TypecheckContext α β) (x : Label) (n : Nat) :
    TypecheckContext.lookup umb mkVar ctx ⟨x, n⟩ =
      lookupSpec umb mkVar x n ctx.items.reverse ∧
    (TypecheckContext.lookup umb mkVar ctx ⟨x, n⟩ = none ↔
      countLabel x ctx.items < n + 1) := by
  have h1 : TypecheckContext.lookup umb mkVar ctx ⟨x, n⟩ =
      lookupSpec umb mkVar x n ctx.items.reverse := by
    rw [TypecheckContext.lookup, lookupGo_eq_spec, lookupSpec]
  refine ⟨h1, ?_⟩
  rw [h1]
  rw [lookupSpec]
  cases hnth : nthLabelled x n ctx.items.reverse with
  | none =>
    have := (nthLabelled_isSome_iff x ctx.items.reverse n)
    rw [hnth] at this
    simp only [Option.isSome_none, Bool.false_eq_true, false_iff, not_lt] at this
    rw [countLabel_reverse] at this
    simp only [true_iff]
    omega
  | some p =>
    rcases p with ⟨passed, it⟩
    have := (nthLabelled_isSome_iff x ctx.items.reverse n)
    rw [hnth] at this
    simp only [Option.isSome_some, true_iff] at this
    rw [countLabel_reverse] at this
    simp only [iff_false]
    constructor
    · intro hcontra
      exact Option.noConfusion hcontra
    all_goals omega

/-- The labelled map container for records and unions (DupTreeMap of
dhall_syntax; map.rs is not under src/), modelled from its interface and
use in parser.rs (in src): insert returns nothing and collecting entries is
infallible, so the container retains duplicate keys. -/
structure DupTreeMap (κ ω : Type) where
  entries : List (κ × ω)

/-- DupTreeMap::insert appends an entry; no duplicate check, no error. -/
def DupTreeMap.insert (m : DupTreeMap κ ω) (k : κ) (v : ω) : DupTreeMap κ ω :=
  ⟨m.entries ++ [(k, v)]⟩

/-- Collecting an iterator of entries into a DupTreeMap. -/
def DupTreeMap.ofList (l : List (κ × ω)) : DupTreeMap κ ω := ⟨l⟩

/-- Conversion of collected entries into the AST's record field map. -/
def toRecFields : List (Label × Expr ν) → RecFields ν
  | [] => RecFields.nilF
  | (l, e) :: rest => RecFields.consF l e (toRecFields rest)

/-- Conversion of collected entries into the AST's union alternative map. -/
def toUnionAlts : List (Label × Option (Expr ν)) → UnionAlts ν
  | [] => UnionAlts.nilU
  | (l, some e) :: rest => UnionAlts.consU l (OptExpr.someE e) (toUnionAlts rest)
  | (l, none) :: rest => UnionAlts.consU l OptExpr.noneE (toUnionAlts rest)

/-- The record-type arm of non_empty_record_type_or_literal (parser.rs
lines 1029 to 1041): the remaining entries are collected into the labelled
map, the first entry is inserted afterwards, and the rule returns a
RecordType node; its result type has no error outcome. -/
def nonEmptyRecordType (firstLabel : Label) (firstExpr : Expr ν)
    (rest : List (Label × Expr ν)) : Expr ν :=
  Expr.recordType (toRecFields ((DupTreeMap.ofList rest).insert firstLabel firstExpr).entries)

/-- The record-literal arm of non_empty_record_type_or_literal (parser.rs
lines 1036 to 1040). -/
def nonEmptyRecordLiteral (firstLabel : Label) (firstExpr : Expr ν)
    (rest : List (Label × Expr ν)) : Expr ν :=
  Expr.recordLit (toRecFields ((DupTreeMap.ofList rest).insert firstLabel firstExpr).entries)

/-- union_type (parser.rs lines 1065 to 1079): the alternatives are
collected directly into the labelled map and the rule returns a UnionType
node; its result type has no error outcome. -/
def unionTypeRule (entries : List (Label × Option (Expr ν))) : Expr ν :=
  Expr.unionType (toUnionAlts entries)

/-- Occurrences of a label among record fields. -/
def recLabelCount (x : Label) : RecFields ν → Nat
  | RecFields.nilF => 0
  | RecFields.consF l _ rest => (if l = x then 1 else 0) + recLabelCount x rest

/-- Occurrences of a label among union alternatives. -/
def altLabelCount (x : Label) : UnionAlts ν → Nat
  | UnionAlts.nilU => 0
  | UnionAlts.consU l _ rest => (if l = x then 1 else 0) + altLabelCount x rest

/-- Conversion to record fields preserves label multiplicity. -/
theorem recLabelCount_toRecFields (x : Label) :
    ∀ L : List (Label × Expr ν),
    recLabelCount x (toRecFields L) = L.countP fun p => decide (p.1 = x) := by
  intro L
  induction L with
  | nil => rfl
  | cons hd rest ih =>
    rcases hd with ⟨l, e⟩
    by_cases hl : l = x
    · simp [toRecFields, recLabelCount, List.countP_cons, hl, ih]
      omega
    · simp [toRecFields, recLabelCount, List.countP_cons, hl, ih]

/-- Conversion to union alternatives preserves label multiplicity. -/
theorem altLabelCount_toUnionAlts (x : Label) :
    ∀ L : List (Label × Option (Expr ν)),
    altLabelCount x (toUnionAlts L) = L.countP fun p => decide (p.1 = x) := by
  intro L
  induction L with
  | nil => rfl
  | cons hd rest ih =>
    rcases hd with ⟨l, oe⟩
    cases oe with
    | some e =>
      by_cases hl : l = x
      · simp [toUnionAlts, altLabelCount, List.countP_cons, hl, ih]
        omega
      · simp [toUnionAlts, altLabelCount, List.countP_cons, hl, ih]
    | none =>
      by_cases hl : l = x
      · simp [toUnionAlts, altLabelCount, List.countP_cons, hl, ih]
        omega
      · simp [toUnionAlts, altLabelCount, List.countP_cons, hl, ih]

/-- Record fields of a parsed record node. -/
def recordFieldsOf : Expr ν → RecFields ν
  | Expr.recordType fs => fs
  | Expr.recordLit fs => fs
  | _ => RecFields.nilF

/-- Union alternatives of a parsed union node. -/
def unionAltsOf : Expr ν → UnionAlts ν
  | Expr.unionType al => al
  | _ => UnionAlts.nilU

/-- C8 (amended): the parser's labelled maps retain duplicate labels: the
record rules and the union rule keep every occurrence of a label, the first
record entry counting on top of the collected rest, and return an AST node;
no duplicate is rejected at map construction and the rules have no parse
error outcome. -/
theorem parser_labelled_maps_retain_duplicates (x firstLabel : Label)
    (firstExpr : Expr ν) (rest : List (Label × Expr ν))
    (entries : List (Label × Option (Expr ν))) :
    recLabelCount x (recordFieldsOf (nonEmptyRecordType firstLabel firstExpr rest)) =
      (rest.countP fun p => decide (p.1 = x)) + (if firstLabel = x then 1 else 0) ∧
    recLabelCount x (recordFieldsOf (nonEmptyRecordLiteral firstLabel firstExpr rest)) =
      (rest.countP fun p => decide (p.1 = x)) + (if firstLabel = x then 1 else 0) ∧
    altLabelCount x (unionAltsOf (unionTypeRule entries)) =
      entries.countP fun p => decide (p.1 = x) := by
  refine ⟨?_, ?_, altLabelCount_toUnionAlts x entries⟩
  all_goals {
    show recLabelCount x (toRecFields (rest ++ [(firstLabel, firstExpr)])) = _
    rw [recLabelCount_toRecFields, List.countP_append]
    by_cases hl : firstLabel = x
    · simp [List.countP_cons, hl]
    · simp [List.countP_cons, hl]
  }

/-- Counterexample to C8 as frozen: a record type written with the label a
twice parses to an AST that carries both occurrences; no parse error is
produced (the rule's result is an AST node, not an error). -/
theorem record_duplicate_label_no_parse_error :
    nonEmptyRecordType (ν := Unit) "a" (Expr.naturalLit 1) [("a", Expr.naturalLit 2)] =
      Expr.recordType (RecFields.consF "a" (Expr.naturalLit 2)
        (RecFields.consF "a" (Expr.naturalLit 1) RecFields.nilF)) ∧
    recLabelCount "a"
      (recordFieldsOf
        (nonEmptyRecordType (ν := Unit) "a" (Expr.naturalLit 1)
          [("a", Expr.naturalLit 2)])) = 2 := by
  exact ⟨rfl, rfl⟩

/-- Increment the carried index of a variable when crossing a binder of a
possibly equal label. -/
def bumpIfEq (v : V) (x : Label) : V :=
  if x = v.name then ⟨v.name, v.idx + 1⟩ else v

mutual

/-- Modelled from the spec: the shift operation of section 4.1 at delta
one — transport a term across one extra binder of the given variable's
label: occurrences x@m with m at least the carried index increment, smaller
indices and other labels are untouched, and at each binder of the same
label the carried index increments before recursing into the body (the
Shift impls of var.rs and normalize.rs are not under src/). -/
def shiftUpE (w : V) : Expr ν → Expr ν
  | .constE c => .constE c
  | .builtinE b => .builtinE b
  | .var u =>
      if u.name = w.name ∧ w.idx ≤ u.idx then .var ⟨u.name, u.idx + 1⟩ else .var u
  | .lam x t b => .lam x (shiftUpE w t) (shiftUpE (bumpIfEq w x) b)
  | .pi x t b => .pi x (shiftUpE w t) (shiftUpE (bumpIfEq w x) b)
  | .letIn x a v b =>
      .letIn x (shiftUpOpt w a) (shiftUpE w v) (shiftUpE (bumpIfEq w x) b)
  | .app f a => .app (shiftUpE w f) (shiftUpE w a)
  | .boolIf c t e => .boolIf (shiftUpE w c) (shiftUpE w t) (shiftUpE w e)
  | .binOp op l r => .binOp op (shiftUpE w l) (shiftUpE w r)
  | .boolLit b => .boolLit b
  | .naturalLit n => .naturalLit n
  | .integerLit i => .integerLit i
  | .doubleLit d => .doubleLit d
  | .textLit t => .textLit (shiftUpChunks w t)
  | .neListLit xs => .neListLit (shiftUpList w xs)
  | .emptyListLit t => .emptyListLit (shiftUpE w t)
  | .someLit e => .someLit (shiftUpE w e)
  | .field e l => .field (shiftUpE w e) l
  | .projection e ls => .projection (shiftUpE w e) ls
  | .merge h u a => .merge (shiftUpE w h) (shiftUpE w u) (shiftUpOpt w a)
  | .annotE e t => .annotE (shiftUpE w e) (shiftUpE w t)
  | .assertE e => .assertE (shiftUpE w e)
  | .recordType fs => .recordType (shiftUpFields w fs)
  | .recordLit fs => .recordLit (shiftUpFields w fs)
  | .unionType alts => .unionType (shiftUpAlts w alts)
  | .importE i => .importE i
  | .embed n => .embed n

/-- Shift of an optional sub-expression. -/
def shiftUpOpt (w : V) : OptExpr ν → OptExpr ν
  | .noneE => .noneE
  | .someE e => .someE (shiftUpE w e)

/-- Shift of a list of sub-expressions. -/
def shiftUpList (w : V) : ExprList ν → ExprList ν
  | .nilE => .nilE
  | .consE e rest => .consE (shiftUpE w e) (shiftUpList w rest)

/-- Shift of record fields. -/
def shiftUpFields (w : V) : RecFields ν → RecFields ν
  | .nilF => .nilF
  | .consF l e rest => .consF l (shiftUpE w e) (shiftUpFields w rest)

/-- Shift of union alternatives. -/
def shiftUpAlts (w : V) : UnionAlts ν → UnionAlts ν
  | .nilU => .nilU
  | .consU l e rest => .consU l (shiftUpOpt w e) (shiftUpAlts w rest)

/-- Shift of text chunks. -/
def shiftUpChunks (w : V) : TextChunks ν → TextChunks ν
  | .nilT => .nilT
  | .chunk s rest => .chunk s (shiftUpChunks w rest)
  | .interp e rest => .interp (shiftUpE w e) (shiftUpChunks w rest)

end

mutual

/-- Modelled from the spec: the substitute operation of section 4.1 —
replace free occurrences of the variable by the replacement, shifting down
by one across the binder being eliminated (occurrences of the label above
the carried index drop by one); at each binder of the same label the
carried index increments, and the replacement is shifted up across the
crossed binder (the Subst impls of var.rs and normalize.rs are not under
src/). -/
def substShiftE (v : V) (val : Expr ν) : Expr ν → Expr ν
  | .constE c => .constE c
  | .builtinE b => .builtinE b
  | .var u =>
      if u.name = v.name then
        if u.idx = v.idx then val
        else if v.idx < u.idx then .var ⟨u.name, u.idx - 1⟩ else .var u
      else .var u
  | .lam x t b =>
      .lam x (substShiftE v val t)
        (substShiftE (bumpIfEq v x) (shiftUpE ⟨x, 0⟩ val) b)
  | .pi x t b =>
      .pi x (substShiftE v val t)
        (substShiftE (bumpIfEq v x) (shiftUpE ⟨x, 0⟩ val) b)
  | .letIn x a v2 b =>
      .letIn x (substShiftOpt v val a) (substShiftE v val v2)
        (substShiftE (bumpIfEq v x) (shiftUpE ⟨x, 0⟩ val) b)
  | .app f a => .app (substShiftE v val f) (substShiftE v val a)
  | .boolIf c t e => .boolIf (substShiftE v val c) (substShiftE v val t) (substShiftE v val e)
  | .binOp op l r => .binOp op (substShiftE v val l) (substShiftE v val r)
  | .boolLit b => .boolLit b
  | .naturalLit n => .naturalLit n
  | .integerLit i => .integerLit i
  | .doubleLit d => .doubleLit d
  | .textLit t => .textLit (substShiftChunks v val t)
  | .neListLit xs => .neListLit (substShiftList v val xs)
  | .emptyListLit t => .emptyListLit (substShiftE v val t)
  | .someLit e => .someLit (substShiftE v val e)
  | .field e l => .field (substShiftE v val e) l
  | .projection e ls => .projection (substShiftE v val e) ls
  | .merge h u a =>
      .merge (substShiftE v val h) (substShiftE v val u) (substShiftOpt v val a)
  | .annotE e t => .annotE (substShiftE v val e) (substShiftE v val t)
  | .assertE e => .assertE (substShiftE v val e)
  | .recordType fs => .recordType (substShiftFields v val fs)
  | .recordLit fs => .recordLit (substShiftFields v val fs)
  | .unionType alts => .unionType (substShiftAlts v val alts)
  | .importE i => .importE i
  | .embed n => .embed n

/-- Substitution in an optional sub-expression. -/
def substShiftOpt (v : V) (val : Expr ν) : OptExpr ν → OptExpr ν
  | .noneE => .noneE
  | .someE e => .someE (substShiftE v val e)

/-- Substitution in a list of sub-expressions. -/
def substShiftList (v : V) (val : Expr ν) : ExprList ν → ExprList ν
  | .nilE => .nilE
  | .consE e rest => .consE (substShiftE v val e) (substShiftList v val rest)

/-- Substitution in record fields. -/
def substShiftFields (v : V) (val : Expr ν) : RecFields ν → RecFields ν
  | .nilF => .nilF
  | .consF l e rest => .consF l (substShiftE v val e) (substShiftFields v val rest)

/-- Substitution in union alternatives. -/
def substShiftAlts (v : V) (val : Expr ν) : UnionAlts ν → UnionAlts ν
  | .nilU => .nilU
  | .consU l e rest => .consU l (substShiftOpt v val e) (substShiftAlts v val rest)

/-- Substitution in text chunks. -/
def substShiftChunks (v : V) (val : Expr ν) : TextChunks ν → TextChunks ν
  | .nilT => .nilT
  | .chunk s rest => .chunk s (substShiftChunks v val rest)
  | .interp e rest => .interp (substShiftE v val e) (substShiftChunks v val rest)

end

/-- First field with the given label in a record literal. -/
def lookupField (x : Label) : RecFields ν → Option (Expr ν)
  | RecFields.nilF => none
  | RecFields.consF l e rest => if l = x then some e else lookupField x rest

/-- Restriction of record fields to a label set (projection). -/
def restrictFields (ls : List Label) : RecFields ν → RecFields ν
  | RecFields.nilF => RecFields.nilF
  | RecFields.consF l e rest =>
      if l ∈ ls then RecFields.consF l e (restrictFields ls rest)
      else restrictFields ls rest

/-- Membership of a label among record fields. -/
def hasField (x : Label) : RecFields ν → Bool
  | RecFields.nilF => false
  | RecFields.consF l _ rest => l = x || hasField x rest

/-- Right-biased record merge of two field maps: fields of the left map
shadowed by the right one are dropped, all right fields kept. -/
def preferMerge : RecFields ν → RecFields ν → RecFields ν
  | RecFields.nilF, r => r
  | RecFields.consF l e rest, r =>
      if hasField l r then preferMerge rest r
      else RecFields.consF l e (preferMerge rest r)

/-- Removal of a label from record fields. -/
def dropField (x : Label) : RecFields ν → RecFields ν
  | RecFields.nilF => RecFields.nilF
  | RecFields.consF l e rest =>
      if l = x then dropField x rest else RecFields.consF l e (dropField x rest)

/-- Recursive record merge of two field maps: disjoint fields fuse and a
collision keeps the pending merge of the two values as an operator node
(the nested merge stays a redex at this weak-head stage). -/
def combineMerge (op : BinOpK) : RecFields ν → RecFields ν → RecFields ν
  | RecFields.nilF, r => r
  | RecFields.consF l e rest, r =>
      match lookupField l r with
      | some e2 => RecFields.consF l (Expr.binOp op e e2) (combineMerge op rest (dropField l r))
      | none => RecFields.consF l e (combineMerge op rest r)

/-- Concatenation of two element lists. -/
def exprListAppend : ExprList ν → ExprList ν → ExprList ν
  | ExprList.nilE, r => r
  | ExprList.consE e rest, r => ExprList.consE e (exprListAppend rest r)

/-- Cons of a raw chunk, concatenating adjacent raw chunks. -/
def consChunk (s : String) : TextChunks ν → TextChunks ν
  | TextChunks.chunk s2 rest => TextChunks.chunk (s ++ s2) rest
  | t => TextChunks.chunk s t

/-- Concatenation of chunk sequences, fusing raws at the seam. -/
def chunksAppend : TextChunks ν → TextChunks ν → TextChunks ν
  | TextChunks.nilT, t2 => t2
  | TextChunks.chunk s rest, t2 => consChunk s (chunksAppend rest t2)
  | TextChunks.interp e rest, t2 => TextChunks.interp e (chunksAppend rest t2)

/-- Modelled from the spec: the binary-operator rewrite table of section
4.4, applied once both operands are in weak-head normal form.  Boolean
operators absorb and drop their units and collapse identical operands;
arithmetic folds literals with zero and one laws; text and list append
concatenate literals; the record merges fuse literal records (right-biased
for prefer); equivalence is inert.  A pair the table does not cover stays a
neutral operator node (normalize.rs is not under src/). -/
def binOpStep [DecidableEq ν] (op : BinOpK) (lw rw : Expr ν) : Expr ν :=
  match op, lw, rw with
  | BinOpK.boolOr, Expr.boolLit true, _ => Expr.boolLit true
  | BinOpK.boolOr, Expr.boolLit false, r => r
  | BinOpK.boolOr, _, Expr.boolLit true => Expr.boolLit true
  | BinOpK.boolOr, l, Expr.boolLit false => l
  | BinOpK.boolOr, l, r => if l = r then l else Expr.binOp BinOpK.boolOr l r
  | BinOpK.boolAnd, Expr.boolLit true, r => r
  | BinOpK.boolAnd, Expr.boolLit false, _ => Expr.boolLit false
  | BinOpK.boolAnd, l, Expr.boolLit true => l
  | BinOpK.boolAnd, _, Expr.boolLit false => Expr.boolLit false
  | BinOpK.boolAnd, l, r => if l = r then l else Expr.binOp BinOpK.boolAnd l r
  | BinOpK.boolEQ, Expr.boolLit true, r => r
  | BinOpK.boolEQ, l, Expr.boolLit true => l
  | BinOpK.boolEQ, l, r => if l = r then Expr.boolLit true else Expr.binOp BinOpK.boolEQ l r
  | BinOpK.boolNE, Expr.boolLit false, r => r
  | BinOpK.boolNE, l, Expr.boolLit false => l
  | BinOpK.boolNE, l, r => if l = r then Expr.boolLit false else Expr.binOp BinOpK.boolNE l r
  | BinOpK.naturalPlus, Expr.naturalLit a, Expr.naturalLit b => Expr.naturalLit (a + b)
  | BinOpK.naturalPlus, Expr.naturalLit 0, r => r
  | BinOpK.naturalPlus, l, Expr.naturalLit 0 => l
  | BinOpK.naturalPlus, l, r => Expr.binOp BinOpK.naturalPlus l r
  | BinOpK.naturalTimes, Expr.naturalLit a, Expr.naturalLit b => Expr.naturalLit (a * b)
  | BinOpK.naturalTimes, Expr.naturalLit 0, _ => Expr.naturalLit 0
  | BinOpK.naturalTimes, _, Expr.naturalLit 0 => Expr.naturalLit 0
  | BinOpK.naturalTimes, Expr.naturalLit 1, r => r
  | BinOpK.naturalTimes, l, Expr.naturalLit 1 => l
  | BinOpK.naturalTimes, l, r => Expr.binOp BinOpK.naturalTimes l r
  | BinOpK.textAppend, Expr.textLit t1, Expr.textLit t2 => Expr.textLit (chunksAppend t1 t2)
  | BinOpK.textAppend, l, r => Expr.binOp BinOpK.textAppend l r
  | BinOpK.listAppend, Expr.neListLit xs, Expr.neListLit ys =>
      Expr.neListLit (exprListAppend xs ys)
  | BinOpK.listAppend, Expr.emptyListLit _, r => r
  | BinOpK.listAppend, l, Expr.emptyListLit _ => l
  | BinOpK.listAppend, l, r => Expr.binOp BinOpK.listAppend l r
  | BinOpK.prefer, Expr.recordLit fs1, Expr.recordLit fs2 =>
      Expr.recordLit (preferMerge fs1 fs2)
  | BinOpK.prefer, l, r => Expr.binOp BinOpK.prefer l r
  | BinOpK.combine, Expr.recordLit fs1, Expr.recordLit fs2 =>
      Expr.recordLit (combineMerge BinOpK.combine fs1 fs2)
  | BinOpK.combine, l, r => Expr.binOp BinOpK.combine l r
  | BinOpK.combineTypes, Expr.recordType fs1, Expr.recordType fs2 =>
      Expr.recordType (combineMerge BinOpK.combineTypes fs1 fs2)
  | BinOpK.combineTypes, l, r => Expr.binOp BinOpK.combineTypes l r
  | BinOpK.equivalence, l, r => Expr.binOp BinOpK.equivalence l r
  | BinOpK.importAlt, l, r => Expr.binOp BinOpK.importAlt l r

mutual

/-- Modelled from the spec: the fuel-indexed weak-head normalizer of
section 4.4.  Beta-reduction, let, if, the operator rewrite table, unary
and binary Natural built-ins on literal arguments, field selection and
projection on record literals, merge on union constructor applications,
text flattening; every other head is already weak-head normal or stuck and
is returned as a value.  No branch signals an error: the only non-value
outcome is an exhausted fuel budget, which models a run that has not
terminated yet (normalize.rs is not under src/). -/
def whnf [DecidableEq ν] : Nat → Expr ν → Option (Expr ν)
  | 0, _ => none
  | fuel + 1, e =>
    match e with
    | Expr.app f a =>
      match whnf fuel f with
      | none => none
      | some fw =>
        match fw with
        | Expr.lam x _ body => whnf fuel (substShiftE ⟨x, 0⟩ a body)
        | Expr.builtinE Builtin.naturalIsZero =>
          (whnf fuel a).map fun aw =>
            match aw with
            | Expr.naturalLit k => Expr.boolLit (k = 0)
            | _ => Expr.app fw aw
        | Expr.builtinE Builtin.naturalEven =>
          (whnf fuel a).map fun aw =>
            match aw with
            | Expr.naturalLit k => Expr.boolLit (k % 2 = 0)
            | _ => Expr.app fw aw
        | Expr.builtinE Builtin.naturalOdd =>
          (whnf fuel a).map fun aw =>
            match aw with
            | Expr.naturalLit k => Expr.boolLit (k % 2 = 1)
            | _ => Expr.app fw aw
        | Expr.builtinE Builtin.naturalToInteger =>
          (whnf fuel a).map fun aw =>
            match aw with
            | Expr.naturalLit k => Expr.integerLit (Int.ofNat k)
            | _ => Expr.app fw aw
        | Expr.builtinE Builtin.naturalShow =>
          (whnf fuel a).map fun aw =>
            match aw with
            | Expr.naturalLit k => Expr.textLit (TextChunks.chunk (toString k) TextChunks.nilT)
            | _ => Expr.app fw aw
        | Expr.app (Expr.builtinE Builtin.naturalSubtract) m =>
          match whnf fuel m, whnf fuel a with
          | some (Expr.naturalLit km), some (Expr.naturalLit ka) =>
              some (Expr.naturalLit (ka - km))
          | some mw, some aw => some (Expr.app (Expr.app (Expr.builtinE Builtin.naturalSubtract) mw) aw)
          | _, _ => none
        | _ => some (Expr.app fw a)
    | Expr.boolIf c t e2 =>
      match whnf fuel c with
      | none => none
      | some cw =>
        match cw with
        | Expr.boolLit true => whnf fuel t
        | Expr.boolLit false => whnf fuel e2
        | _ =>
          match whnf fuel t, whnf fuel e2 with
          | some tw, some ew =>
            if tw = Expr.boolLit true ∧ ew = Expr.boolLit false then some cw
            else if tw = ew then some tw
            else some (Expr.boolIf cw tw ew)
          | _, _ => none
    | Expr.letIn x _ v body => whnf fuel (substShiftE ⟨x, 0⟩ v body)
    | Expr.binOp BinOpK.importAlt l _ => whnf fuel l
    | Expr.binOp op l r =>
      match whnf fuel l, whnf fuel r with
      | some lw, some rw => some (binOpStep op lw rw)
      | _, _ => none
    | Expr.field e2 x =>
      match whnf fuel e2 with
      | none => none
      | some ew =>
        match ew with
        | Expr.recordLit fs =>
          match lookupField x fs with
          | some v => whnf fuel v
          | none => some (Expr.field ew x)
        | _ => some (Expr.field ew x)
    | Expr.projection e2 ls =>
      match whnf fuel e2 with
      | none => none
      | some ew =>
        match ew with
        | Expr.recordLit fs => some (Expr.recordLit (restrictFields ls fs))
        | _ => some (Expr.projection ew ls)
    | Expr.merge h u ann =>
      match whnf fuel u with
      | none => none
      | some uw =>
        match uw with
        | Expr.app (Expr.field (Expr.unionType alts) k) payload =>
          match whnf fuel h with
          | none => none
          | some hw =>
            match hw with
            | Expr.recordLit fs =>
              match lookupField k fs with
              | some handler => whnf fuel (Expr.app handler payload)
              | none => some (Expr.merge hw uw ann)
            | _ => some (Expr.merge hw uw ann)
        | Expr.field (Expr.unionType alts) k =>
          match whnf fuel h with
          | none => none
          | some hw =>
            match hw with
            | Expr.recordLit fs =>
              match lookupField k fs with
              | some v => whnf fuel v
              | none => some (Expr.merge hw uw ann)
            | _ => some (Expr.merge hw uw ann)
        | _ => some (Expr.merge h uw ann)
    | Expr.textLit t =>
      match whnfChunks (fuel + 1) t with
      | none => none
      | some tw =>
        match tw with
        | TextChunks.interp v TextChunks.nilT => some v
        | _ => some (Expr.textLit tw)
    | Expr.annotE e2 _ => whnf fuel e2
    | e2 => some e2
  termination_by fuel e => (fuel, sizeOf e)

/-- Weak-head normalization of text chunks: raw chunks fuse with their
neighbours and an interpolated expression that is itself a text literal is
spliced in place. -/
def whnfChunks [DecidableEq ν] : Nat → TextChunks ν → Option (TextChunks ν)
  | _, TextChunks.nilT => some TextChunks.nilT
  | fuel, TextChunks.chunk s rest => (whnfChunks fuel rest).map (consChunk s)
  | fuel, TextChunks.interp e rest =>
    match fuel with
    | 0 => none
    | fuel2 + 1 =>
      match whnf fuel2 e with
      | none => none
      | some ew =>
        match whnfChunks (fuel2 + 1) rest with
        | none => none
        | some restw =>
          match ew with
          | Expr.textLit t2 => some (chunksAppend t2 restw)
          | _ => some (TextChunks.interp ew restw)
  termination_by fuel t => (fuel, sizeOf t)

end

/-- The self-application lambda over Natural (an ill-typed term). -/
def deltaE : Expr Unit :=
  Expr.lam "x" (Expr.builtinE Builtin.natural)
    (Expr.app (Expr.var ⟨"x", 0⟩) (Expr.var ⟨"x", 0⟩))

/-- The divergent self-application of deltaE. -/
def omegaE : Expr Unit := Expr.app deltaE deltaE

/-- One beta step of the weak-head normalizer. -/
theorem whnf_beta [DecidableEq ν] (fuel : Nat) (x : Label) (ty body a : Expr ν)
    (hf : whnf fuel (Expr.lam x ty body) = some (Expr.lam x ty body)) :
    whnf (fuel + 1) (Expr.app (Expr.lam x ty body) a) =
      whnf fuel (substShiftE ⟨x, 0⟩ a body) := by
  simp only [whnf]
  rw [hf]

/-- A lambda is already weak-head normal. -/
theorem whnf_lam [DecidableEq ν] (fuel : Nat) (x : Label) (ty body : Expr ν) :
    whnf (fuel + 1) (Expr.lam x ty body) = some (Expr.lam x ty body) := by
  simp [whnf]

/-- The ill-typed self-application exhausts every fuel budget: the
normalizer loops on it. -/
theorem whnf_omega_none : ∀ n : Nat, whnf n omegaE = none := by
  intro n
  induction n with
  | zero => simp [whnf]
  | succ n ih =>
    cases n with
    | zero =>
      show whnf 1 (Expr.app deltaE deltaE) = none
      simp [whnf]
    | succ m =>
      have hdelta : whnf (m + 1) deltaE = some deltaE := whnf_lam m "x" _ _
      have hb := whnf_beta (m + 1) "x" (Expr.builtinE Builtin.natural)
        (Expr.app (Expr.var ⟨"x", 0⟩) (Expr.var ⟨"x", 0⟩)) deltaE hdelta
      have hred : whnf (m + 1 + 1) omegaE = whnf (m + 1) omegaE := by
        have hsub : substShiftE ⟨"x", 0⟩ deltaE
            (Expr.app (Expr.var ⟨"x", 0⟩) (Expr.var ⟨"x", 0⟩)) = Expr.app deltaE deltaE := by
          simp [substShiftE]
        rw [show omegaE = Expr.app deltaE deltaE from rfl]
        rw [show (Expr.app deltaE deltaE : Expr Unit) =
          Expr.app (Expr.lam "x" (Expr.builtinE Builtin.natural)
            (Expr.app (Expr.var ⟨"x", 0⟩) (Expr.var ⟨"x", 0⟩))) deltaE from rfl]
        rw [hb, hsub]
        rfl
      rw [hred]
      exact ih

/-- C3 (amended): normalization never signals an error — its result type
has no error branch, and a terminating run returns a possibly stuck value:
the ill-typed application of one literal to another comes back unchanged as
a stuck value.  Normalization is not total, however: the ill-typed
self-application exhausts every fuel budget, modelling a run that never
returns. -/
theorem normalize_never_signals :
    (∀ fuel : Nat,
      whnf (fuel + 2) (Expr.app (Expr.naturalLit (ν := Unit) 1) (Expr.naturalLit 1)) =
        some (Expr.app (Expr.naturalLit 1) (Expr.naturalLit 1))) ∧
    (∀ fuel : Nat, whnf fuel omegaE = none) :=
  ⟨fun fuel => by simp [whnf], whnf_omega_none⟩

/-- Counterexample to C3 as frozen: normalize does not return a Normalized
value for every input; the ill-typed self-application never yields a value,
whatever the fuel budget. -/
theorem normalize_not_total :
    ¬ ∃ (fuel : Nat) (v : Expr Unit), whnf fuel omegaE = some v := by
  rintro ⟨fuel, v, h⟩
  rw [whnf_omega_none fuel] at h
  cases h

/-- Tokens of the binary encoding model.  Modelled from the spec: section 6
describes a CBOR-shaped stream of arrays tagged by small-integer
discriminators holding numbers and strings; binary.rs is not under src/, so
the byte layer is abstracted into a token stream. -/
inductive Tok where
  | tag (k : Nat)
  | nat (n : Nat)
  | int (i : Int)
  | str (s : String)
  | bit (b : Bool)
  deriving DecidableEq, Repr

/-- Errors of the encoder (an Embed payload has no serialized form). -/
inductive EncodeError where
  | cannotEncodeEmbed
  deriving DecidableEq, Repr

/-- Errors of the decoder: truncated input or an unknown discriminator. -/
inductive DecodeError where
  | unexpectedEnd
  | unknownTag (k : Nat)
  deriving DecidableEq, Repr

/-- Numeric code of a universe constant. -/
def constCode : Const → Nat
  | Const.type_ => 0
  | Const.kind => 1
  | Const.sort => 2

/-- Decoding of a universe constant code. -/
def decodeConstN : Nat → Except DecodeError Const
  | 0 => Except.ok Const.type_
  | 1 => Except.ok Const.kind
  | 2 => Except.ok Const.sort
  | k + 3 => Except.error (DecodeError.unknownTag (k + 3))

/-- Constant codes decode back. -/
theorem decodeConstN_code (c : Const) : decodeConstN (constCode c) = Except.ok c := by
  cases c <;> rfl

/-- Numeric code of a built-in. -/
def builtinCode : Builtin → Nat
  | Builtin.bool => 0
  | Builtin.natural => 1
  | Builtin.integer => 2
  | Builtin.double => 3
  | Builtin.text => 4
  | Builtin.list => 5
  | Builtin.optional => 6
  | Builtin.optionalNone => 7
  | Builtin.naturalBuild => 8
  | Builtin.naturalFold => 9
  | Builtin.naturalIsZero => 10
  | Builtin.naturalEven => 11
  | Builtin.naturalOdd => 12
  | Builtin.naturalToInteger => 13
  | Builtin.naturalShow => 14
  | Builtin.naturalSubtract => 15
  | Builtin.integerToDouble => 16
  | Builtin.integerShow => 17
  | Builtin.doubleShow => 18
  | Builtin.listBuild => 19
  | Builtin.listFold => 20
  | Builtin.listLength => 21
  | Builtin.listHead => 22
  | Builtin.listLast => 23
  | Builtin.listIndexed => 24
  | Builtin.listReverse => 25
  | Builtin.optionalFold => 26
  | Builtin.optionalBuild => 27
  | Builtin.textShow => 28

/-- Decoding of a built-in code. -/
def decodeBuiltinN : Nat → Except DecodeError Builtin
  | 0 => Except.ok Builtin.bool
  | 1 => Except.ok Builtin.natural
  | 2 => Except.ok Builtin.integer
  | 3 => Except.ok Builtin.double
  | 4 => Except.ok Builtin.text
  | 5 => Except.ok Builtin.list
  | 6 => Except.ok Builtin.optional
  | 7 => Except.ok Builtin.optionalNone
  | 8 => Except.ok Builtin.naturalBuild
  | 9 => Except.ok Builtin.naturalFold
  | 10 => Except.ok Builtin.naturalIsZero
  | 11 => Except.ok Builtin.naturalEven
  | 12 => Except.ok Builtin.naturalOdd
  | 13 => Except.ok Builtin.naturalToInteger
  | 14 => Except.ok Builtin.naturalShow
  | 15 => Except.ok Builtin.naturalSubtract
  | 16 => Except.ok Builtin.integerToDouble
  | 17 => Except.ok Builtin.integerShow
  | 18 => Except.ok Builtin.doubleShow
  | 19 => Except.ok Builtin.listBuild
  | 20 => Except.ok Builtin.listFold
  | 21 => Except.ok Builtin.listLength
  | 22 => Except.ok Builtin.listHead
  | 23 => Except.ok Builtin.listLast
  | 24 => Except.ok Builtin.listIndexed
  | 25 => Except.ok Builtin.listReverse
  | 26 => Except.ok Builtin.optionalFold
  | 27 => Except.ok Builtin.optionalBuild
  | 28 => Except.ok Builtin.textShow
  | k + 29 => Except.error (DecodeError.unknownTag (k + 29))

/-- Built-in codes decode back. -/
theorem decodeBuiltinN_code (b : Builtin) : decodeBuiltinN (builtinCode b) = Except.ok b := by
  cases b <;> rfl

/-- Numeric code of a binary operator. -/
def opCode : BinOpK → Nat
  | BinOpK.boolOr => 0
  | BinOpK.boolAnd => 1
  | BinOpK.boolEQ => 2
  | BinOpK.boolNE => 3
  | BinOpK.naturalPlus => 4
  | BinOpK.naturalTimes => 5
  | BinOpK.textAppend => 6
  | BinOpK.listAppend => 7
  | BinOpK.combine => 8
  | BinOpK.prefer => 9
  | BinOpK.combineTypes => 10
  | BinOpK.equivalence => 11
  | BinOpK.importAlt => 12

/-- Decoding of an operator code. -/
def decodeOpN : Nat → Except DecodeError BinOpK
  | 0 => Except.ok BinOpK.boolOr
  | 1 => Except.ok BinOpK.boolAnd
  | 2 => Except.ok BinOpK.boolEQ
  | 3 => Except.ok BinOpK.boolNE
  | 4 => Except.ok BinOpK.naturalPlus
  | 5 => Except.ok BinOpK.naturalTimes
  | 6 => Except.ok BinOpK.textAppend
  | 7 => Except.ok BinOpK.listAppend
  | 8 => Except.ok BinOpK.combine
  | 9 => Except.ok BinOpK.prefer
  | 10 => Except.ok BinOpK.combineTypes
  | 11 => Except.ok BinOpK.equivalence
  | 12 => Except.ok BinOpK.importAlt
  | k + 13 => Except.error (DecodeError.unknownTag (k + 13))

/-- Operator codes decode back. -/
theorem decodeOpN_code (op : BinOpK) : decodeOpN (opCode op) = Except.ok op := by
  cases op <;> rfl

/-- Numeric code of a file prefix. -/
def pfxCode : FilePfx → Nat
  | FilePfx.absolute => 0
  | FilePfx.here => 1
  | FilePfx.parent => 2
  | FilePfx.home => 3

/-- Decoding of a file prefix code. -/
def decodePfxN : Nat → Except DecodeError FilePfx
  | 0 => Except.ok FilePfx.absolute
  | 1 => Except.ok FilePfx.here
  | 2 => Except.ok FilePfx.parent
  | 3 => Except.ok FilePfx.home
  | k + 4 => Except.error (DecodeError.unknownTag (k + 4))

/-- File prefix codes decode back. -/
theorem decodePfxN_code (p : FilePfx) : decodePfxN (pfxCode p) = Except.ok p := by
  cases p <;> rfl

/-- Numeric code of a URL scheme. -/
def schemeCode : Scheme → Nat
  | Scheme.http => 0
  | Scheme.https => 1

/-- Decoding of a URL scheme code. -/
def decodeSchemeN : Nat → Except DecodeError Scheme
  | 0 => Except.ok Scheme.http
  | 1 => Except.ok Scheme.https
  | k + 2 => Except.error (DecodeError.unknownTag (k + 2))

/-- Scheme codes decode back. -/
theorem decodeSchemeN_code (s : Scheme) : decodeSchemeN (schemeCode s) = Except.ok s := by
  cases s <;> rfl

/-- Numeric code of an import mode. -/
def modeCode : ImportMode → Nat
  | ImportMode.code => 0
  | ImportMode.rawText => 1
  | ImportMode.location => 2

/-- Decoding of an import mode code. -/
def decodeModeN : Nat → Except DecodeError ImportMode
  | 0 => Except.ok ImportMode.code
  | 1 => Except.ok ImportMode.rawText
  | 2 => Except.ok ImportMode.location
  | k + 3 => Except.error (DecodeError.unknownTag (k + 3))

/-- Import mode codes decode back. -/
theorem decodeModeN_code (m : ImportMode) : decodeModeN (modeCode m) = Except.ok m := by
  cases m <;> rfl

mutual

/-- Number of expression nodes, the fuel needed to decode an encoding. -/
def sizeE : Expr ν → Nat
  | .constE _ => 1
  | .builtinE _ => 1
  | .var _ => 1
  | .lam _ t b => sizeE t + sizeE b + 1
  | .pi _ t b => sizeE t + sizeE b + 1
  | .letIn _ a v b => sizeOpt a + sizeE v + sizeE b + 1
  | .app f a => sizeE f + sizeE a + 1
  | .boolIf c t e => sizeE c + sizeE t + sizeE e + 1
  | .binOp _ l r => sizeE l + sizeE r + 1
  | .boolLit _ => 1
  | .naturalLit _ => 1
  | .integerLit _ => 1
  | .doubleLit _ => 1
  | .textLit t => sizeT t + 1
  | .neListLit xs => sizeL xs + 1
  | .emptyListLit t => sizeE t + 1
  | .someLit e => sizeE e + 1
  | .field e _ => sizeE e + 1
  | .projection e _ => sizeE e + 1
  | .merge h u a => sizeE h + sizeE u + sizeOpt a + 1
  | .annotE e t => sizeE e + sizeE t + 1
  | .assertE e => sizeE e + 1
  | .recordType fs => sizeF fs + 1
  | .recordLit fs => sizeF fs + 1
  | .unionType alts => sizeU alts + 1
  | .importE i => sizeImp i + 1
  | .embed _ => 1

/-- Node count of an optional sub-expression. -/
def sizeOpt : OptExpr ν → Nat
  | .noneE => 0
  | .someE e => sizeE e

/-- Node count of a list of sub-expressions. -/
def sizeL : ExprList ν → Nat
  | .nilE => 0
  | .consE e rest => sizeE e + sizeL rest

/-- Node count of record fields. -/
def sizeF : RecFields ν → Nat
  | .nilF => 0
  | .consF _ e rest => sizeE e + sizeF rest

/-- Node count of union alternatives. -/
def sizeU : UnionAlts ν → Nat
  | .nilU => 0
  | .consU _ e rest => sizeOpt e + sizeU rest

/-- Node count of text chunks. -/
def sizeT : TextChunks ν → Nat
  | .nilT => 0
  | .chunk _ rest => sizeT rest
  | .interp e rest => sizeE e + sizeT rest

/-- Node count inside an import. -/
def sizeImp : ImportE ν → Nat
  | .mk _ loc _ => sizeLoc loc

/-- Node count inside an import location. -/
def sizeLoc : ImportLoc ν → Nat
  | .remote _ _ _ _ hs => sizeOpt hs
  | .localL _ _ => 0
  | .envL _ => 0
  | .missing => 0

end

/-- Element count of an expression list. -/
def lenL : ExprList ν → Nat
  | .nilE => 0
  | .consE _ rest => lenL rest + 1

/-- Entry count of record fields. -/
def lenF : RecFields ν → Nat
  | .nilF => 0
  | .consF _ _ rest => lenF rest + 1

/-- Entry count of union alternatives. -/
def lenU : UnionAlts ν → Nat
  | .nilU => 0
  | .consU _ _ rest => lenU rest + 1

/-- Item count of text chunks. -/
def lenT : TextChunks ν → Nat
  | .nilT => 0
  | .chunk _ rest => lenT rest + 1
  | .interp _ rest => lenT rest + 1

/-- String tokens pushed in front of a continuation. -/
def strToks : List String → List Tok → List Tok
  | [], acc => acc
  | s :: rest, acc => Tok.str s :: strToks rest acc

/-- Number tokens pushed in front of a continuation. -/
def natToks : List Nat → List Tok → List Tok
  | [], acc => acc
  | n :: rest, acc => Tok.nat n :: natToks rest acc

/-- An optional string as tokens. -/
def optStrToks : Option String → List Tok → List Tok
  | none, acc => Tok.tag 0 :: acc
  | some s, acc => Tok.tag 1 :: Tok.str s :: acc

/-- An optional hash as tokens. -/
def hashToks : Option Hash → List Tok → List Tok
  | none, acc => Tok.tag 0 :: acc
  | some (Hash.sha256 bytes), acc =>
      Tok.tag 1 :: Tok.nat bytes.length :: natToks bytes acc

mutual

/-- Modelled from the spec: the AST-to-binary direction of section 6 —
every expression encodes as a small-integer discriminator followed by its
components, container nodes carrying their entry count; an Embed payload
has no serialized form and is an encode error (binary.rs is not under
src/).  The stream is built onto an accumulated continuation. -/
def encodeE : Expr ν → List Tok → Except EncodeError (List Tok)
  | .constE c, acc => Except.ok (Tok.tag 0 :: Tok.nat (constCode c) :: acc)
  | .builtinE b, acc => Except.ok (Tok.tag 1 :: Tok.nat (builtinCode b) :: acc)
  | .var u, acc => Except.ok (Tok.tag 2 :: Tok.str u.name :: Tok.nat u.idx :: acc)
  | .lam x t b, acc => do
      let r1 ← encodeE b acc
      let r2 ← encodeE t r1
      Except.ok (Tok.tag 3 :: Tok.str x :: r2)
  | .pi x t b, acc => do
      let r1 ← encodeE b acc
      let r2 ← encodeE t r1
      Except.ok (Tok.tag 4 :: Tok.str x :: r2)
  | .letIn x a v b, acc => do
      let r1 ← encodeE b acc
      let r2 ← encodeE v r1
      let r3 ← encodeOptE a r2
      Except.ok (Tok.tag 5 :: Tok.str x :: r3)
  | .app f a, acc => do
      let r1 ← encodeE a acc
      let r2 ← encodeE f r1
      Except.ok (Tok.tag 6 :: r2)
  | .boolIf c t e, acc => do
      let r1 ← encodeE e acc
      let r2 ← encodeE t r1
      let r3 ← encodeE c r2
      Except.ok (Tok.tag 7 :: r3)
  | .binOp op l r, acc => do
      let r1 ← encodeE r acc
      let r2 ← encodeE l r1
      Except.ok (Tok.tag 8 :: Tok.nat (opCode op) :: r2)
  | .boolLit b, acc => Except.ok (Tok.tag 9 :: Tok.bit b :: acc)
  | .naturalLit n, acc => Except.ok (Tok.tag 10 :: Tok.nat n :: acc)
  | .integerLit i, acc => Except.ok (Tok.tag 11 :: Tok.int i :: acc)
  | .doubleLit d, acc => Except.ok (Tok.tag 12 :: Tok.nat d :: acc)
  | .textLit t, acc => do
      let r1 ← encodeChunksE t acc
      Except.ok (Tok.tag 13 :: Tok.nat (lenT t) :: r1)
  | .neListLit xs, acc => do
      let r1 ← encodeListE xs acc
      Except.ok (Tok.tag 14 :: Tok.nat (lenL xs) :: r1)
  | .emptyListLit t, acc => do
      let r1 ← encodeE t acc
      Except.ok (Tok.tag 15 :: r1)
  | .someLit e, acc => do
      let r1 ← encodeE e acc
      Except.ok (Tok.tag 16 :: r1)
  | .field e l, acc => do
      let r1 ← encodeE e acc
      Except.ok (Tok.tag 17 :: Tok.str l :: r1)
  | .projection e ls, acc => do
      let r1 ← encodeE e acc
      Except.ok (Tok.tag 18 :: Tok.nat ls.length :: strToks ls r1)
  | .merge h u a, acc => do
      let r1 ← encodeOptE a acc
      let r2 ← encodeE u r1
      let r3 ← encodeE h r2
      Except.ok (Tok.tag 19 :: r3)
  | .annotE e t, acc => do
      let r1 ← encodeE t acc
      let r2 ← encodeE e r1
      Except.ok (Tok.tag 20 :: r2)
  | .assertE e, acc => do
      let r1 ← encodeE e acc
      Except.ok (Tok.tag 21 :: r1)
  | .recordType fs, acc => do
      let r1 ← encodeFieldsE fs acc
      Except.ok (Tok.tag 22 :: Tok.nat (lenF fs) :: r1)
  | .recordLit fs, acc => do
      let r1 ← encodeFieldsE fs acc
      Except.ok (Tok.tag 23 :: Tok.nat (lenF fs) :: r1)
  | .unionType alts, acc => do
      let r1 ← encodeAltsE alts acc
      Except.ok (Tok.tag 24 :: Tok.nat (lenU alts) :: r1)
  | .importE i, acc => do
      let r1 ← encodeImpE i acc
      Except.ok (Tok.tag 25 :: r1)
  | .embed _, _ => Except.error EncodeError.cannotEncodeEmbed

/-- Encoding of an optional sub-expression. -/
def encodeOptE : OptExpr ν → List Tok → Except EncodeError (List Tok)
  | .noneE, acc => Except.ok (Tok.tag 0 :: acc)
  | .someE e, acc => do
      let r1 ← encodeE e acc
      Except.ok (Tok.tag 1 :: r1)

/-- Encoding of list elements. -/
def encodeListE : ExprList ν → List Tok → Except EncodeError (List Tok)
  | .nilE, acc => Except.ok acc
  | .consE e rest, acc => do
      let r1 ← encodeListE rest acc
      encodeE e r1

/-- Encoding of record fields. -/
def encodeFieldsE : RecFields ν → List Tok → Except EncodeError (List Tok)
  | .nilF, acc => Except.ok acc
  | .consF l e rest, acc => do
      let r1 ← encodeFieldsE rest acc
      let r2 ← encodeE e r1
      Except.ok (Tok.str l :: r2)

/-- Encoding of union alternatives. -/
def encodeAltsE : UnionAlts ν → List Tok → Except EncodeError (List Tok)
  | .nilU, acc => Except.ok acc
  | .consU l e rest, acc => do
      let r1 ← encodeAltsE rest acc
      let r2 ← encodeOptE e r1
      Except.ok (Tok.str l :: r2)

/-- Encoding of text chunks. -/
def encodeChunksE : TextChunks ν → List Tok → Except EncodeError (List Tok)
  | .nilT, acc => Except.ok acc
  | .chunk s rest, acc => do
      let r1 ← encodeChunksE rest acc
      Except.ok (Tok.tag 0 :: Tok.str s :: r1)
  | .interp e rest, acc => do
      let r1 ← encodeChunksE rest acc
      let r2 ← encodeE e r1
      Except.ok (Tok.tag 1 :: r2)

/-- Encoding of an import. -/
def encodeImpE : ImportE ν → List Tok → Except EncodeError (List Tok)
  | .mk mode loc hash, acc => do
      let r1 ← encodeLocE loc (hashToks hash acc)
      Except.ok (Tok.nat (modeCode mode) :: r1)

/-- Encoding of an import location. -/
def encodeLocE : ImportLoc ν → List Tok → Except EncodeError (List Tok)
  | .localL p path, acc =>
      Except.ok (Tok.tag 0 :: Tok.nat (pfxCode p) :: Tok.nat path.length :: strToks path acc)
  | .remote s auth path q hs, acc => do
      let r1 ← encodeOptE hs acc
      Except.ok (Tok.tag 1 :: Tok.nat (schemeCode s) :: Tok.str auth ::
        Tok.nat path.length :: strToks path (optStrToks q r1))
  | .envL n, acc => Except.ok (Tok.tag 2 :: Tok.str n :: acc)
  | .missing, acc => Except.ok (Tok.tag 3 :: acc)

end

/-- Reading a counted run of string tokens. -/
def decodeStrs : Nat → List Tok → Except DecodeError (List String × List Tok)
  | 0, toks => Except.ok ([], toks)
  | n + 1, Tok.str s :: rest => do
      let (L, r) ← decodeStrs n rest
      Except.ok (s :: L, r)
  | _ + 1, _ => Except.error DecodeError.unexpectedEnd

/-- Reading a counted run of number tokens. -/
def decodeNats : Nat → List Tok → Except DecodeError (List Nat × List Tok)
  | 0, toks => Except.ok ([], toks)
  | n + 1, Tok.nat k :: rest => do
      let (L, r) ← decodeNats n rest
      Except.ok (k :: L, r)
  | _ + 1, _ => Except.error DecodeError.unexpectedEnd

/-- Reading an optional string. -/
def decodeOptStr : List Tok → Except DecodeError (Option String × List Tok)
  | Tok.tag 0 :: rest => Except.ok (none, rest)
  | Tok.tag 1 :: Tok.str s :: rest => Except.ok (some s, rest)
  | _ => Except.error DecodeError.unexpectedEnd

/-- Reading an optional hash. -/
def decodeHash : List Tok → Except DecodeError (Option Hash × List Tok)
  | Tok.tag 0 :: rest => Except.ok (none, rest)
  | Tok.tag 1 :: Tok.nat n :: rest => do
      let (bytes, r) ← decodeNats n rest
      Except.ok (some (Hash.sha256 bytes), r)
  | _ => Except.error DecodeError.unexpectedEnd

/-- Counted string runs decode back. -/
theorem decodeStrs_strToks (L : List String) (acc : List Tok) :
    decodeStrs L.length (strToks L acc) = Except.ok (L, acc) := by
  induction L with
  | nil => rfl
  | cons s rest ih => simp [strToks, decodeStrs, ih, Bind.bind, Except.bind]

/-- Counted number runs decode back. -/
theorem decodeNats_natToks (L : List Nat) (acc : List Tok) :
    decodeNats L.length (natToks L acc) = Except.ok (L, acc) := by
  induction L with
  | nil => rfl
  | cons n rest ih => simp [natToks, decodeNats, ih, Bind.bind, Except.bind]

/-- Optional strings decode back. -/
theorem decodeOptStr_optStrToks (q : Option String) (acc : List Tok) :
    decodeOptStr (optStrToks q acc) = Except.ok (q, acc) := by
  cases q <;> rfl

/-- Optional hashes decode back. -/
theorem decodeHash_hashToks (h : Option Hash) (acc : List Tok) :
    decodeHash (hashToks h acc) = Except.ok (h, acc) := by
  cases h with
  | none => rfl
  | some hh =>
    cases hh with
    | sha256 bytes =>
      simp [hashToks, decodeHash, decodeNats_natToks, Bind.bind, Except.bind]

/-- Reading one discriminator token. -/
def readTagT : List Tok → Except DecodeError (Nat × List Tok)
  | Tok.tag k :: rest => Except.ok (k, rest)
  | _ => Except.error DecodeError.unexpectedEnd

/-- Reading one number token. -/
def readNatT : List Tok → Except DecodeError (Nat × List Tok)
  | Tok.nat n :: rest => Except.ok (n, rest)
  | _ => Except.error DecodeError.unexpectedEnd

/-- Reading one string token. -/
def readStrT : List Tok → Except DecodeError (String × List Tok)
  | Tok.str s :: rest => Except.ok (s, rest)
  | _ => Except.error DecodeError.unexpectedEnd

/-- Reading one integer token. -/
def readIntT : List Tok → Except DecodeError (Int × List Tok)
  | Tok.int i :: rest => Except.ok (i, rest)
  | _ => Except.error DecodeError.unexpectedEnd

/-- Reading one boolean token. -/
def readBitT : List Tok → Except DecodeError (Bool × List Tok)
  | Tok.bit b :: rest => Except.ok (b, rest)
  | _ => Except.error DecodeError.unexpectedEnd

mutual

/-- Modelled from the spec: the binary-to-AST direction of section 6 — the
inverse of the encoder, failing with a decode error on malformed structure
(truncation) or unknown discriminators.  The fuel bounds the nesting depth
the decoder will accept; any budget of at least the encoded expression's
node count suffices. -/
def decodeE : Nat → List Tok → Except DecodeError (Expr ν × List Tok)
  | 0, _ => Except.error DecodeError.unexpectedEnd
  | fuel + 1, toks => do
      let (k, rest) ← readTagT toks
      decodeBody fuel k rest
  termination_by fuel _ => (fuel, 0, 0)

/-- Dispatch on an expression discriminator. -/
def decodeBody : Nat → Nat → List Tok → Except DecodeError (Expr ν × List Tok)
  | _, 0, toks => do
      let (k, rest) ← readNatT toks
      let c ← decodeConstN k
      Except.ok (Expr.constE c, rest)
  | _, 1, toks => do
      let (k, rest) ← readNatT toks
      let b ← decodeBuiltinN k
      Except.ok (Expr.builtinE b, rest)
  | _, 2, toks => do
      let (x, r1) ← readStrT toks
      let (n, r2) ← readNatT r1
      Except.ok (Expr.var ⟨x, n⟩, r2)
  | fuel, 3, toks => do
      let (x, r1) ← readStrT toks
      let (t, r2) ← decodeE fuel r1
      let (b, r3) ← decodeE fuel r2
      Except.ok (Expr.lam x t b, r3)
  | fuel, 4, toks => do
      let (x, r1) ← readStrT toks
      let (t, r2) ← decodeE fuel r1
      let (b, r3) ← decodeE fuel r2
      Except.ok (Expr.pi x t b, r3)
  | fuel, 5, toks => do
      let (x, r1) ← readStrT toks
      let (a, r2) ← decodeOptE fuel r1
      let (v, r3) ← decodeE fuel r2
      let (b, r4) ← decodeE fuel r3
      Except.ok (Expr.letIn x a v b, r4)
  | fuel, 6, toks => do
      let (f, r1) ← decodeE fuel toks
      let (a, r2) ← decodeE fuel r1
      Except.ok (Expr.app f a, r2)
  | fuel, 7, toks => do
      let (c, r1) ← decodeE fuel toks
      let (t, r2) ← decodeE fuel r1
      let (e, r3) ← decodeE fuel r2
      Except.ok (Expr.boolIf c t e, r3)
  | fuel, 8, toks => do
      let (k, r1) ← readNatT toks
      let op ← decodeOpN k
      let (l, r2) ← decodeE fuel r1
      let (r, r3) ← decodeE fuel r2
      Except.ok (Expr.binOp op l r, r3)
  | _, 9, toks => do
      let (b, rest) ← readBitT toks
      Except.ok (Expr.boolLit b, rest)
  | _, 10, toks => do
      let (n, rest) ← readNatT toks
      Except.ok (Expr.naturalLit n, rest)
  | _, 11, toks => do
      let (i, rest) ← readIntT toks
      Except.ok (Expr.integerLit i, rest)
  | _, 12, toks => do
      let (d, rest) ← readNatT toks
      Except.ok (Expr.doubleLit d, rest)
  | fuel, 13, toks => do
      let (cnt, r1) ← readNatT toks
      let (t, r2) ← decodeChunksE fuel cnt r1
      Except.ok (Expr.textLit t, r2)
  | fuel, 14, toks => do
      let (cnt, r1) ← readNatT toks
      let (xs, r2) ← decodeListE fuel cnt r1
      Except.ok (Expr.neListLit xs, r2)
  | fuel, 15, toks => do
      let (t, r1) ← decodeE fuel toks
      Except.ok (Expr.emptyListLit t, r1)
  | fuel, 16, toks => do
      let (e, r1) ← decodeE fuel toks
      Except.ok (Expr.someLit e, r1)
  | fuel, 17, toks => do
      let (l, r1) ← readStrT toks
      let (e, r2) ← decodeE fuel r1
      Except.ok (Expr.field e l, r2)
  | fuel, 18, toks => do
      let (cnt, r1) ← readNatT toks
      let (ls, r2) ← decodeStrs cnt r1
      let (e, r3) ← decodeE fuel r2
      Except.ok (Expr.projection e ls, r3)
  | fuel, 19, toks => do
      let (h, r1) ← decodeE fuel toks
      let (u, r2) ← decodeE fuel r1
      let (a, r3) ← decodeOptE fuel r2
      Except.ok (Expr.merge h u a, r3)
  | fuel, 20, toks => do
      let (e, r1) ← decodeE fuel toks
      let (t, r2) ← decodeE fuel r1
      Except.ok (Expr.annotE e t, r2)
  | fuel, 21, toks => do
      let (e, r1) ← decodeE fuel toks
      Except.ok (Expr.assertE e, r1)
  | fuel, 22, toks => do
      let (cnt, r1) ← readNatT toks
      let (fs, r2) ← decodeFieldsE fuel cnt r1
      Except.ok (Expr.recordType fs, r2)
  | fuel, 23, toks => do
      let (cnt, r1) ← readNatT toks
      let (fs, r2) ← decodeFieldsE fuel cnt r1
      Except.ok (Expr.recordLit fs, r2)
  | fuel, 24, toks => do
      let (cnt, r1) ← readNatT toks
      let (al, r2) ← decodeAltsE fuel cnt r1
      Except.ok (Expr.unionType al, r2)
  | fuel, 25, toks => do
      let (i, r1) ← decodeImpE fuel toks
      Except.ok (Expr.importE i, r1)
  | _, k + 26, _ => Except.error (DecodeError.unknownTag (k + 26))
  termination_by fuel _ _ => (fuel, 5, 0)

/-- Decoding of an optional sub-expression. -/
def decodeOptE : Nat → List Tok → Except DecodeError (OptExpr ν × List Tok)
  | fuel, toks => do
      let (k, rest) ← readTagT toks
      match k with
      | 0 => Except.ok (OptExpr.noneE, rest)
      | 1 => do
          let (e, r1) ← decodeE fuel rest
          Except.ok (OptExpr.someE e, r1)
      | k2 + 2 => Except.error (DecodeError.unknownTag (k2 + 2))
  termination_by fuel _ => (fuel, 1, 0)

/-- Decoding of a counted run of list elements. -/
def decodeListE : Nat → Nat → List Tok → Except DecodeError (ExprList ν × List Tok)
  | _, 0, toks => Except.ok (ExprList.nilE, toks)
  | fuel, cnt + 1, toks => do
      let (e, r1) ← decodeE fuel toks
      let (rest, r2) ← decodeListE fuel cnt r1
      Except.ok (ExprList.consE e rest, r2)
  termination_by fuel cnt _ => (fuel, 4, cnt)

/-- Decoding of a counted run of record fields. -/
def decodeFieldsE : Nat → Nat → List Tok → Except DecodeError (RecFields ν × List Tok)
  | _, 0, toks => Except.ok (RecFields.nilF, toks)
  | fuel, cnt + 1, toks => do
      let (l, r1) ← readStrT toks
      let (e, r2) ← decodeE fuel r1
      let (rest, r3) ← decodeFieldsE fuel cnt r2
      Except.ok (RecFields.consF l e rest, r3)
  termination_by fuel cnt _ => (fuel, 4, cnt)

/-- Decoding of a counted run of union alternatives. -/
def decodeAltsE : Nat → Nat → List Tok → Except DecodeError (UnionAlts ν × List Tok)
  | _, 0, toks => Except.ok (UnionAlts.nilU, toks)
  | fuel, cnt + 1, toks => do
      let (l, r1) ← readStrT toks
      let (e, r2) ← decodeOptE fuel r1
      let (rest, r3) ← decodeAltsE fuel cnt r2
      Except.ok (UnionAlts.consU l e rest, r3)
  termination_by fuel cnt _ => (fuel, 4, cnt)

/-- Decoding of a counted run of text chunk items. -/
def decodeChunksE : Nat → Nat → List Tok → Except DecodeError (TextChunks ν × List Tok)
  | _, 0, toks => Except.ok (TextChunks.nilT, toks)
  | fuel, cnt + 1, toks => do
      let (k, r0) ← readTagT toks
      match k with
      | 0 => do
          let (s, r1) ← readStrT r0
          let (rest, r2) ← decodeChunksE fuel cnt r1
          Except.ok (TextChunks.chunk s rest, r2)
      | 1 => do
          let (e, r1) ← decodeE fuel r0
          let (rest, r2) ← decodeChunksE fuel cnt r1
          Except.ok (TextChunks.interp e rest, r2)
      | k2 + 2 => Except.error (DecodeError.unknownTag (k2 + 2))
  termination_by fuel cnt _ => (fuel, 4, cnt)

/-- Decoding of an import. -/
def decodeImpE : Nat → List Tok → Except DecodeError (ImportE ν × List Tok)
  | fuel, toks => do
      let (k, rest) ← readNatT toks
      let mode ← decodeModeN k
      let (loc, r1) ← decodeLocE fuel rest
      let (hash, r2) ← decodeHash r1
      Except.ok (ImportE.mk mode loc hash, r2)
  termination_by fuel _ => (fuel, 3, 0)

/-- Decoding of an import location. -/
def decodeLocE : Nat → List Tok → Except DecodeError (ImportLoc ν × List Tok)
  | fuel, toks => do
      let (k, rest) ← readTagT toks
      match k with
      | 0 => do
          let (pk, r1) ← readNatT rest
          let p ← decodePfxN pk
          let (cnt, r2) ← readNatT r1
          let (path, r3) ← decodeStrs cnt r2
          Except.ok (ImportLoc.localL p path, r3)
      | 1 => do
          let (sk, r1) ← readNatT rest
          let s ← decodeSchemeN sk
          let (auth, r2) ← readStrT r1
          let (cnt, r3) ← readNatT r2
          let (path, r4) ← decodeStrs cnt r3
          let (q, r5) ← decodeOptStr r4
          let (hs, r6) ← decodeOptE fuel r5
          Except.ok (ImportLoc.remote s auth path q hs, r6)
      | 2 => do
          let (n, r1) ← readStrT rest
          Except.ok (ImportLoc.envL n, r1)
      | 3 => Except.ok (ImportLoc.missing, rest)
      | k2 + 4 => Except.error (DecodeError.unknownTag (k2 + 4))
  termination_by fuel _ => (fuel, 2, 0)

end

/-- Every expression has at least one node. -/
theorem sizeE_pos (e : Expr ν) : 1 ≤ sizeE e := by
  cases e <;> simp only [sizeE] <;> omega

mutual

/-- Decoding inverts encoding: a successful encoding, decoded with fuel at
least the expression's node count, yields the expression back exactly and
leaves the continuation untouched. -/
theorem rtE (fuel : Nat) {e : Expr ν} {acc toks : List Tok}
    (h1 : encodeE e acc = Except.ok toks) (h2 : sizeE e ≤ fuel) :
    decodeE fuel toks = Except.ok (e, acc) := by
  cases fuel with
  | zero => exact absurd (le_trans (sizeE_pos e) h2) (by omega)
  | succ m =>
    cases e with
    | constE c =>
      simp only [encodeE] at h1
      cases h1
      simp [decodeE, decodeBody, readTagT, readNatT, decodeConstN_code,
        Bind.bind, Except.bind]
    | builtinE b =>
      simp only [encodeE] at h1
      cases h1
      simp [decodeE, decodeBody, readTagT, readNatT, decodeBuiltinN_code,
        Bind.bind, Except.bind]
    | var u =>
      simp only [encodeE] at h1
      cases h1
      simp [decodeE, decodeBody, readTagT, readNatT, readStrT, Bind.bind, Except.bind]
    | lam x t b =>
      simp only [encodeE] at h1
      obtain ⟨r1, hb, h1⟩ := exceptBind_ok h1
      obtain ⟨r2, ht, h1⟩ := exceptBind_ok h1
      cases h1
      simp only [sizeE] at h2
      simp [decodeE, decodeBody, readTagT, readStrT, rtE m ht (by omega),
        rtE m hb (by omega), Bind.bind, Except.bind]
    | pi x t b =>
      simp only [encodeE] at h1
      obtain ⟨r1, hb, h1⟩ := exceptBind_ok h1
      obtain ⟨r2, ht, h1⟩ := exceptBind_ok h1
      cases h1
      simp only [sizeE] at h2
      simp [decodeE, decodeBody, readTagT, readStrT, rtE m ht (by omega),
        rtE m hb (by omega), Bind.bind, Except.bind]
    | letIn x a v b =>
      simp only [encodeE] at h1
      obtain ⟨r1, hb, h1⟩ := exceptBind_ok h1
      obtain ⟨r2, hv, h1⟩ := exceptBind_ok h1
      obtain ⟨r3, ha, h1⟩ := exceptBind_ok h1
      cases h1
      simp only [sizeE] at h2
      simp [decodeE, decodeBody, readTagT, readStrT, rtOpt m ha (by omega),
        rtE m hv (by omega), rtE m hb (by omega), Bind.bind, Except.bind]
    | app f a =>
      simp only [encodeE] at h1
      obtain ⟨r1, ha, h1⟩ := exceptBind_ok h1
      obtain ⟨r2, hf, h1⟩ := exceptBind_ok h1
      cases h1
      simp only [sizeE] at h2
      simp [decodeE, decodeBody, readTagT, rtE m hf (by omega), rtE m ha (by omega),
        Bind.bind, Except.bind]
    | boolIf c t e =>
      simp only [encodeE] at h1
      obtain ⟨r1, he, h1⟩ := exceptBind_ok h1
      obtain ⟨r2, ht, h1⟩ := exceptBind_ok h1
      obtain ⟨r3, hc, h1⟩ := exceptBind_ok h1
      cases h1
      simp only [sizeE] at h2
      simp [decodeE, decodeBody, readTagT, rtE m hc (by omega), rtE m ht (by omega),
        rtE m he (by omega), Bind.bind, Except.bind]
    | binOp op l r =>
      simp only [encodeE] at h1
      obtain ⟨r1, hr, h1⟩ := exceptBind_ok h1
      obtain ⟨r2, hl, h1⟩ := exceptBind_ok h1
      cases h1
      simp only [sizeE] at h2
      simp [decodeE, decodeBody, readTagT, readNatT, decodeOpN_code,
        rtE m hl (by omega), rtE m hr (by omega), Bind.bind, Except.bind]
    | boolLit b =>
      simp only [encodeE] at h1
      cases h1
      simp [decodeE, decodeBody, readTagT, readBitT, Bind.bind, Except.bind]
    | naturalLit n =>
      simp only [encodeE] at h1
      cases h1
      simp [decodeE, decodeBody, readTagT, readNatT, Bind.bind, Except.bind]
    | integerLit i =>
      simp only [encodeE] at h1
      cases h1
      simp [decodeE, decodeBody, readTagT, readIntT, Bind.bind, Except.bind]
    | doubleLit d =>
      simp only [encodeE] at h1
      cases h1
      simp [decodeE, decodeBody, readTagT, readNatT, Bind.bind, Except.bind]
    | textLit t =>
      simp only [encodeE] at h1
      obtain ⟨r1, ht, h1⟩ := exceptBind_ok h1
      cases h1
      simp only [sizeE] at h2
      simp [decodeE, decodeBody, readTagT, readNatT, rtChunks m ht (by omega),
        Bind.bind, Except.bind]
    | neListLit xs =>
      simp only [encodeE] at h1
      obtain ⟨r1, hx, h1⟩ := exceptBind_ok h1
      cases h1
      simp only [sizeE] at h2
      simp [decodeE, decodeBody, readTagT, readNatT, rtList m hx (by omega),
        Bind.bind, Except.bind]
    | emptyListLit t =>
      simp only [encodeE] at h1
      obtain ⟨r1, ht, h1⟩ := exceptBind_ok h1
      cases h1
      simp only [sizeE] at h2
      simp [decodeE, decodeBody, readTagT, rtE m ht (by omega), Bind.bind, Except.bind]
    | someLit e =>
      simp only [encodeE] at h1
      obtain ⟨r1, he, h1⟩ := exceptBind_ok h1
      cases h1
      simp only [sizeE] at h2
      simp [decodeE, decodeBody, readTagT, rtE m he (by omega), Bind.bind, Except.bind]
    | field e l =>
      simp only [encodeE] at h1
      obtain ⟨r1, he, h1⟩ := exceptBind_ok h1
      cases h1
      simp only [sizeE] at h2
      simp [decodeE, decodeBody, readTagT, readStrT, rtE m he (by omega),
        Bind.bind, Except.bind]
    | projection e ls =>
      simp only [encodeE] at h1
      obtain ⟨r1, he, h1⟩ := exceptBind_ok h1
      cases h1
      simp only [sizeE] at h2
      simp [decodeE, decodeBody, readTagT, readNatT, decodeStrs_strToks,
        rtE m he (by omega), Bind.bind, Except.bind]
    | merge h u a =>
      simp only [encodeE] at h1
      obtain ⟨r1, ha, h1⟩ := exceptBind_ok h1
      obtain ⟨r2, hu, h1⟩ := exceptBind_ok h1
      obtain ⟨r3, hh, h1⟩ := exceptBind_ok h1
      cases h1
      simp only [sizeE] at h2
      simp [decodeE, decodeBody, readTagT, rtE m hh (by omega), rtE m hu (by omega),
        rtOpt m ha (by omega), Bind.bind, Except.bind]
    | annotE e t =>
      simp only [encodeE] at h1
      obtain ⟨r1, ht, h1⟩ := exceptBind_ok h1
      obtain ⟨r2, he, h1⟩ := exceptBind_ok h1
      cases h1
      simp only [sizeE] at h2
      simp [decodeE, decodeBody, readTagT, rtE m he (by omega), rtE m ht (by omega),
        Bind.bind, Except.bind]
    | assertE e =>
      simp only [encodeE] at h1
      obtain ⟨r1, he, h1⟩ := exceptBind_ok h1
      cases h1
      simp only [sizeE] at h2
      simp [decodeE, decodeBody, readTagT, rtE m he (by omega), Bind.bind, Except.bind]
    | recordType fs =>
      simp only [encodeE] at h1
      obtain ⟨r1, hf, h1⟩ := exceptBind_ok h1
      cases h1
      simp only [sizeE] at h2
      simp [decodeE, decodeBody, readTagT, readNatT, rtFields m hf (by omega),
        Bind.bind, Except.bind]
    | recordLit fs =>
      simp only [encodeE] at h1
      obtain ⟨r1, hf, h1⟩ := exceptBind_ok h1
      cases h1
      simp only [sizeE] at h2
      simp [decodeE, decodeBody, readTagT, readNatT, rtFields m hf (by omega),
        Bind.bind, Except.bind]
    | unionType alts =>
      simp only [encodeE] at h1
      obtain ⟨r1, hal, h1⟩ := exceptBind_ok h1
      cases h1
      simp only [sizeE] at h2
      simp [decodeE, decodeBody, readTagT, readNatT, rtAlts m hal (by omega),
        Bind.bind, Except.bind]
    | importE i =>
      simp only [encodeE] at h1
      obtain ⟨r1, hi, h1⟩ := exceptBind_ok h1
      cases h1
      simp only [sizeE] at h2
      simp [decodeE, decodeBody, readTagT, rtImp m hi (by omega), Bind.bind, Except.bind]
    | embed n => simp [encodeE] at h1
  termination_by sizeOf e

/-- Round trip for optional sub-expressions. -/
theorem rtOpt (fuel : Nat) {a : OptExpr ν} {acc toks : List Tok}
    (h1 : encodeOptE a acc = Except.ok toks) (h2 : sizeOpt a ≤ fuel) :
    decodeOptE fuel toks = Except.ok (a, acc) := by
  cases a with
  | noneE =>
    simp only [encodeOptE] at h1
    cases h1
    simp [decodeOptE, readTagT, Bind.bind, Except.bind]
  | someE e =>
    simp only [encodeOptE] at h1
    obtain ⟨r1, he, h1⟩ := exceptBind_ok h1
    cases h1
    simp only [sizeOpt] at h2
    simp [decodeOptE, readTagT, rtE fuel he h2, Bind.bind, Except.bind]
  termination_by sizeOf a

/-- Round trip for counted list elements. -/
theorem rtList (fuel : Nat) {xs : ExprList ν} {acc toks : List Tok}
    (h1 : encodeListE xs acc = Except.ok toks) (h2 : sizeL xs ≤ fuel) :
    decodeListE fuel (lenL xs) toks = Except.ok (xs, acc) := by
  cases xs with
  | nilE =>
    simp only [encodeListE] at h1
    cases h1
    simp [decodeListE, lenL]
  | consE e rest =>
    simp only [encodeListE] at h1
    obtain ⟨r1, hrest, he⟩ := exceptBind_ok h1
    simp only [sizeL] at h2
    simp [decodeListE, lenL, rtE fuel he (by omega), rtList fuel hrest (by omega),
      Bind.bind, Except.bind]
  termination_by sizeOf xs

/-- Round trip for counted record fields. -/
theorem rtFields (fuel : Nat) {fs : RecFields ν} {acc toks : List Tok}
    (h1 : encodeFieldsE fs acc = Except.ok toks) (h2 : sizeF fs ≤ fuel) :
    decodeFieldsE fuel (lenF fs) toks = Except.ok (fs, acc) := by
  cases fs with
  | nilF =>
    simp only [encodeFieldsE] at h1
    cases h1
    simp [decodeFieldsE, lenF]
  | consF l e rest =>
    simp only [encodeFieldsE] at h1
    obtain ⟨r1, hrest, h1⟩ := exceptBind_ok h1
    obtain ⟨r2, he, h1⟩ := exceptBind_ok h1
    cases h1
    simp only [sizeF] at h2
    simp [decodeFieldsE, lenF, readStrT, rtE fuel he (by omega),
      rtFields fuel hrest (by omega), Bind.bind, Except.bind]
  termination_by sizeOf fs

/-- Round trip for counted union alternatives. -/
theorem rtAlts (fuel : Nat) {al : UnionAlts ν} {acc toks : List Tok}
    (h1 : encodeAltsE al acc = Except.ok toks) (h2 : sizeU al ≤ fuel) :
    decodeAltsE fuel (lenU al) toks = Except.ok (al, acc) := by
  cases al with
  | nilU =>
    simp only [encodeAltsE] at h1
    cases h1
    simp [decodeAltsE, lenU]
  | consU l e rest =>
    simp only [encodeAltsE] at h1
    obtain ⟨r1, hrest, h1⟩ := exceptBind_ok h1
    obtain ⟨r2, he, h1⟩ := exceptBind_ok h1
    cases h1
    simp only [sizeU] at h2
    simp [decodeAltsE, lenU, readStrT, rtOpt fuel he (by omega),
      rtAlts fuel hrest (by omega), Bind.bind, Except.bind]
  termination_by sizeOf al

/-- Round trip for counted text chunk items. -/
theorem rtChunks (fuel : Nat) {t : TextChunks ν} {acc toks : List Tok}
    (h1 : encodeChunksE t acc = Except.ok toks) (h2 : sizeT t ≤ fuel) :
    decodeChunksE fuel (lenT t) toks = Except.ok (t, acc) := by
  cases t with
  | nilT =>
    simp only [encodeChunksE] at h1
    cases h1
    simp [decodeChunksE, lenT]
  | chunk s rest =>
    simp only [encodeChunksE] at h1
    obtain ⟨r1, hrest, h1⟩ := exceptBind_ok h1
    cases h1
    simp only [sizeT] at h2
    simp [decodeChunksE, lenT, readTagT, readStrT, rtChunks fuel hrest h2,
      Bind.bind, Except.bind]
  | interp e rest =>
    simp only [encodeChunksE] at h1
    obtain ⟨r1, hrest, h1⟩ := exceptBind_ok h1
    obtain ⟨r2, he, h1⟩ := exceptBind_ok h1
    cases h1
    simp only [sizeT] at h2
    simp [decodeChunksE, lenT, readTagT, rtE fuel he (by omega),
      rtChunks fuel hrest (by omega), Bind.bind, Except.bind]
  termination_by sizeOf t

/-- Round trip for imports. -/
theorem rtImp (fuel : Nat) {i : ImportE ν} {acc toks : List Tok}
    (h1 : encodeImpE i acc = Except.ok toks) (h2 : sizeImp i ≤ fuel) :
    decodeImpE fuel toks = Except.ok (i, acc) := by
  cases i with
  | mk mode loc hash =>
    simp only [encodeImpE] at h1
    obtain ⟨r1, hloc, h1⟩ := exceptBind_ok h1
    cases h1
    simp only [sizeImp] at h2
    simp [decodeImpE, readNatT, decodeModeN_code, rtLoc fuel hloc h2,
      decodeHash_hashToks, Bind.bind, Except.bind]
  termination_by sizeOf i

/-- Round trip for import locations. -/
theorem rtLoc (fuel : Nat) {loc : ImportLoc ν} {acc toks : List Tok}
    (h1 : encodeLocE loc acc = Except.ok toks) (h2 : sizeLoc loc ≤ fuel) :
    decodeLocE fuel toks = Except.ok (loc, acc) := by
  cases loc with
  | localL p path =>
    simp only [encodeLocE] at h1
    cases h1
    simp [decodeLocE, readTagT, readNatT, decodePfxN_code, decodeStrs_strToks,
      Bind.bind, Except.bind]
  | remote s auth path q hs =>
    simp only [encodeLocE] at h1
    obtain ⟨r1, hhs, h1⟩ := exceptBind_ok h1
    cases h1
    simp only [sizeLoc] at h2
    simp [decodeLocE, readTagT, readNatT, readStrT, decodeSchemeN_code,
      decodeStrs_strToks, decodeOptStr_optStrToks, rtOpt fuel hhs h2,
      Bind.bind, Except.bind]
  | envL n =>
    simp only [encodeLocE] at h1
    cases h1
    simp [decodeLocE, readTagT, readStrT, Bind.bind, Except.bind]
  | missing =>
    simp only [encodeLocE] at h1
    cases h1
    simp [decodeLocE, readTagT, Bind.bind, Except.bind]
  termination_by sizeOf loc

end

/-- C9: decoding inverts encoding. Whenever the binary encoder succeeds on an
expression (prepending its token stream to any continuation), the decoder,
given fuel at least the expression node count, returns exactly the same
expression and the untouched continuation. Exact syntactic equality is
stronger than the claimed equality up to alpha-equivalence. Decoding can
fail only with a decode error for truncated input or an unknown
discriminator, by the shape of the DecodeError type. -/
theorem decode_encode_roundtrip (fuel : Nat) {e : Expr ν} {acc toks : List Tok}
    (h1 : encodeE e acc = Except.ok toks) (h2 : sizeE e ≤ fuel) :
    decodeE fuel toks = Except.ok (e, acc) :=
  rtE fuel h1 h2

/-- C9, concrete instance: the identity function on its own variable
round-trips through the codec. -/
theorem decode_encode_roundtrip_witness :
    encodeE (Expr.lam "x" (Expr.var ⟨"x", 0⟩) (Expr.var ⟨"x", 0⟩) : Expr Unit) [] =
      Except.ok [Tok.tag 3, Tok.str "x", Tok.tag 2, Tok.str "x", Tok.nat 0,
        Tok.tag 2, Tok.str "x", Tok.nat 0] ∧
    sizeE (Expr.lam "x" (Expr.var ⟨"x", 0⟩) (Expr.var ⟨"x", 0⟩) : Expr Unit) ≤ 3 ∧
    decodeE 3 [Tok.tag 3, Tok.str "x", Tok.tag 2, Tok.str "x", Tok.nat 0,
        Tok.tag 2, Tok.str "x", Tok.nat 0] =
      Except.ok ((Expr.lam "x" (Expr.var ⟨"x", 0⟩) (Expr.var ⟨"x", 0⟩) : Expr Unit), []) :=
  ⟨rfl, by simp [sizeE], decode_encode_roundtrip 3 rfl (by simp [sizeE])⟩

end DhallSpec
